import Mathlib

/-!
Verification of the `pdf_quote_extractor` package (Ignacio's OCR System).

The Python sources are shallowly embedded: strings are `List Char`,
Python `float` values are modelled as exact rationals `ℚ` (IEEE rounding
is outside the scope of the properties checked here), `None` is `Option`,
and the per-document pipeline state is threaded explicitly.
-/

namespace PdfQuote

/-- A numeric-token character per the regex classes in `normalize.py`:
digit, comma or dot. -/
def isNumTokChar (c : Char) : Bool :=
  c.isDigit || c = ',' || c = '.'

/-- Embeds `_normalize_single_separator` from `normalize.py`: `value`
split on `sep`; one part returns the value unchanged; three or more
parts are joined when thousands-style (every part after the first is
exactly three digits), else all separators but the last collapse and
the last becomes the decimal point; exactly two parts use the
head/tail thousands heuristic. -/
def normalizeSingleSeparator (value : List Char) (sep : Char)
    (allowThousands : Bool) : List Char :=
  let parts := value.splitOn sep
  if parts.length = 1 then value
  else if 2 < parts.length then
    if allowThousands = true ∧
        (parts.tail.all fun p => p.all Char.isDigit && p.length == 3) = true
    then parts.flatten
    else
      parts.dropLast.flatten ++
        (if parts.getLastD [] = [] then [] else '.' :: parts.getLastD [])
  else
    let head := parts.headD []
    let tail := parts.getLastD []
    if head = [] ∨ tail = [] then head ++ tail
    else if allowThousands = true ∧ tail.length = 3 ∧ head.length ≤ 3 ∧
        head.head? ≠ some '0' then head ++ tail
    else head ++ '.' :: tail

/-- Characters removed wholesale by `_normalize_numeric_token`
(space, non-breaking space, apostrophe). -/
def isStrippedChar (c : Char) : Bool :=
  c = ' ' || c = Char.ofNat 160 || c = Char.ofNat 39

/-- Python `str.strip`: drop leading and trailing whitespace. -/
def pyStrip (s : List Char) : List Char :=
  ((s.dropWhile Char.isWhitespace).reverse.dropWhile Char.isWhitespace).reverse

/-- Index (from the right) of the last occurrence of `c`, used to embed
Python's `str.rfind` comparisons: `rfind a > rfind b` iff, both
present, `a`'s last occurrence is later. -/
def lastSepIsComma (s : List Char) : Bool :=
  s.reverse.indexOf ',' < s.reverse.indexOf '.'

/-- Embeds `_normalize_numeric_token` from `normalize.py`: strip
whitespace/apostrophes, peel one sign, reject digit-free tokens, then
resolve comma/dot by the both-separator rule or the single-separator
helper, finally rejecting sign-or-dot-only results. -/
def normalizeNumericToken (token : List Char) (allowThousands : Bool) :
    Option (List Char) :=
  let cleaned := (pyStrip token).filter (fun c => !isStrippedChar c)
  if cleaned = [] then none
  else
    let sign : List Char :=
      if cleaned.head? = some '+' then ['+']
      else if cleaned.head? = some '-' then ['-']
      else []
    let cleaned := if sign = [] then cleaned else cleaned.tail
    if cleaned = [] ∨ ¬ cleaned.any Char.isDigit then none
    else
      let commaCount := cleaned.count ','
      let dotCount := cleaned.count '.'
      let cleaned :=
        if commaCount ≠ 0 ∧ dotCount ≠ 0 then
          if lastSepIsComma cleaned then
            (cleaned.filter (· ≠ '.')).map
              (fun c => if c = ',' then '.' else c)
          else cleaned.filter (· ≠ ',')
        else if commaCount ≠ 0 then
          normalizeSingleSeparator cleaned ',' allowThousands
        else if dotCount ≠ 0 then
          normalizeSingleSeparator cleaned '.' allowThousands
        else cleaned
      let normalized := sign ++ cleaned
      if normalized = [] ∨ normalized = ['+'] ∨ normalized = ['-'] ∨
          normalized = ['.'] ∨ normalized = ['+', '.'] ∨
          normalized = ['-', '.'] then none
      else some normalized

/-- Value of a digit list read in base 10 (empty list is 0). -/
def digitsVal (s : List Char) : ℕ :=
  s.foldl (fun acc c => acc * 10 + c.toNat - '0'.toNat) 0

/-- Embeds Python `float(...)` applied to the normalized decimal
strings this program produces: an optional sign, digits, at most one
dot, at least one digit overall; the result is the exact rational. -/
def floatOfDecimal (s : List Char) : Option ℚ :=
  let sign : ℚ := if s.head? = some '-' then -1 else 1
  let body := if s.head? = some '-' ∨ s.head? = some '+' then s.tail else s
  let intPart := body.takeWhile Char.isDigit
  let rest := body.dropWhile Char.isDigit
  match rest with
  | [] =>
      if intPart = [] then none
      else some (sign * (digitsVal intPart : ℚ))
  | '.' :: fracPart =>
      if fracPart.all Char.isDigit ∧ (intPart ≠ [] ∨ fracPart ≠ []) then
        some (sign * ((digitsVal intPart : ℚ) +
          (digitsVal fracPart : ℚ) / (10 : ℚ) ^ fracPart.length))
      else none
  | _ => none

/-- Match the regex `[-+]?[0-9][0-9.,]*` anchored at the head of `s`
(greedy tail), as in `NUMBER_TOKEN_PATTERN`. -/
def numTokenAt (s : List Char) : Option (List Char) :=
  match s with
  | [] => none
  | c :: rest =>
      if c.isDigit then some (c :: rest.takeWhile isNumTokChar)
      else if c = '+' ∨ c = '-' then
        match rest with
        | d :: rest2 =>
            if d.isDigit then some (c :: d :: rest2.takeWhile isNumTokChar)
            else none
        | [] => none
      else none

/-- Leftmost match of `NUMBER_TOKEN_PATTERN` in `s` (Python
`re.search`). -/
def findNumberToken : List Char → Option (List Char)
  | [] => none
  | c :: rest =>
      match numTokenAt (c :: rest) with
      | some tok => some tok
      | none => findNumberToken rest

/-- Python `str.replace("\n", " ")`. -/
def newlinesToSpaces (s : List Char) : List Char :=
  s.map (fun c => if c = '\n' then ' ' else c)

/-- Embeds `parse_number_value` from `normalize.py` (with a non-null,
already listed input): find the first numeric token, normalize it,
convert to a number. -/
def parseNumberValue (raw : List Char) (allowThousands : Bool) :
    Option ℚ :=
  match findNumberToken (newlinesToSpaces raw) with
  | none => none
  | some tok =>
      match normalizeNumericToken tok allowThousands with
      | none => none
      | some normalized => floatOfDecimal normalized

/-- One parsed quote line item, mirroring the dict built in
`business.py:parse_line_items`; absent dict keys are `none`. -/
structure LineItem where
  file : String
  itemIndex : Nat
  serviceName : Option String
  sku : Option String
  unitsQty : Option String
  termStart : Option String
  termEnd : Option String
  listUnitPriceRaw : Option String
  discountPctRaw : Option String
  netUnitPriceRaw : Option String
  netTotalRaw : Option String
  descriptionContinuation : Option String
  listUnitPriceValue : Option ℚ
  discountPctValue : Option ℚ
  netUnitPriceValue : Option ℚ
  netTotalValue : Option ℚ
  quoteSectionIndex : Option Nat
deriving DecidableEq, Repr

/-- The all-`none` line item, a convenience base for concrete tests. -/
def emptyItem : LineItem :=
  { file := "", itemIndex := 0, serviceName := none, sku := none,
    unitsQty := none, termStart := none, termEnd := none,
    listUnitPriceRaw := none, discountPctRaw := none,
    netUnitPriceRaw := none, netTotalRaw := none,
    descriptionContinuation := none, listUnitPriceValue := none,
    discountPctValue := none, netUnitPriceValue := none,
    netTotalValue := none, quoteSectionIndex := none }

/-- Embeds `int(item.get("quote_section_index") or 1)` from
`select_line_items_for_total`: a missing or zero (falsy) index maps
to section 1. -/
def sectionKey (it : LineItem) : Nat :=
  match it.quoteSectionIndex with
  | none => 1
  | some 0 => 1
  | some k => k

/-- First-occurrence-order deduplication, modelling iteration order of
the `sections` dict in `select_line_items_for_total`. -/
def dedupFirst : List Nat → List Nat
  | [] => []
  | k :: ks => k :: dedupFirst (ks.filter (fun x => x ≠ k))
termination_by l => l.length
decreasing_by simpa using Nat.lt_succ_of_le (List.length_filter_le _ _)

/-- The distinct section keys of a line-item list, in first-seen order
(the `sections` dict keys). -/
def sectionKeys (xs : List LineItem) : List Nat :=
  dedupFirst (xs.map sectionKey)

/-- The items of one section, in original order (`sections[k]`). -/
def sectionItems (k : Nat) (xs : List LineItem) : List LineItem :=
  xs.filter (fun it => sectionKey it == k)

/-- A section's total: sum of its `net_total_value`s with null read
as 0, as in `select_line_items_for_total`. -/
def sectionSum (xs : List LineItem) (k : Nat) : ℚ :=
  ((sectionItems k xs).map (fun it => it.netTotalValue.getD 0)).sum

/-- Renumber items `n, n+1, ...` (`_reindex_items` starts at 1). -/
def reindexFrom (n : Nat) : List LineItem → List LineItem
  | [] => []
  | it :: rest => { it with itemIndex := n } :: reindexFrom (n + 1) rest

/-- Embeds `_reindex_items` from `business.py`: copies with
`item_index` rewritten to 1..N. -/
def reindexItems (xs : List LineItem) : List LineItem :=
  reindexFrom 1 xs

/-- The key minimizing `(diff, key)` lexicographically among `b :: ks`:
the head of the Python `matched_sections` list after its sort by
`(diff, section)`, keys being distinct. -/
def bestKey (d : Nat → ℚ) : List Nat → Nat → Nat
  | [], b => b
  | k :: ks, b =>
      bestKey d ks (if d k < d b ∨ (d k = d b ∧ k < b) then k else b)

/-- Embeds `select_line_items_for_total` from `business.py`. -/
def selectLineItemsForTotal (xs : List LineItem) (total : Option ℚ)
    (tol : ℚ) : List LineItem :=
  if xs = [] then []
  else
    match total with
    | none => reindexItems xs
    | some t =>
        if (sectionKeys xs).length ≤ 1 then reindexItems xs
        else
          match (sectionKeys xs).filter
              (fun k => |t - sectionSum xs k| ≤ tol) with
          | [] => reindexItems xs
          | m :: ms =>
              reindexItems
                (sectionItems
                  (bestKey (fun k => |t - sectionSum xs k|) ms m) xs)

/-- A line item with its `item_index` blanked, for stating
"unchanged except renumbering". -/
def stripIndex (it : LineItem) : LineItem :=
  { it with itemIndex := 0 }

/-- Lexicographic order on (difference, section) pairs, the sort key
of `matched_sections.sort` in `select_line_items_for_total`. -/
def lexPLe (a b : ℚ × Nat) : Prop :=
  a.1 < b.1 ∨ (a.1 = b.1 ∧ a.2 ≤ b.2)

theorem sectionKey_update (it : LineItem) (n : Nat) :
    sectionKey { it with itemIndex := n } = sectionKey it := rfl

theorem stripIndex_update (it : LineItem) (n : Nat) :
    stripIndex { it with itemIndex := n } = stripIndex it := rfl

theorem reindexFrom_map_sectionKey (xs : List LineItem) :
    ∀ n, (reindexFrom n xs).map sectionKey = xs.map sectionKey := by
  induction xs with
  | nil => intro n; rfl
  | cons it rest ih => intro n; simp [reindexFrom, ih]; rfl

theorem sectionKeys_reindexFrom (xs : List LineItem) (n : Nat) :
    sectionKeys (reindexFrom n xs) = sectionKeys xs := by
  simp [sectionKeys, reindexFrom_map_sectionKey]

theorem reindexFrom_reindexFrom (xs : List LineItem) :
    ∀ n m, reindexFrom n (reindexFrom m xs) = reindexFrom n xs := by
  induction xs with
  | nil => intro n m; rfl
  | cons it rest ih => intro n m; simp [reindexFrom, ih]

theorem reindexFrom_length (xs : List LineItem) :
    ∀ n, (reindexFrom n xs).length = xs.length := by
  induction xs with
  | nil => intro n; rfl
  | cons it rest ih => intro n; simp [reindexFrom, ih]

theorem reindexFrom_ne_nil (xs : List LineItem) (n : Nat)
    (h : xs ≠ []) : reindexFrom n xs ≠ [] := by
  cases xs with
  | nil => exact absurd rfl h
  | cons it rest => simp [reindexFrom]

theorem reindexFrom_map_stripIndex (xs : List LineItem) :
    ∀ n, (reindexFrom n xs).map stripIndex = xs.map stripIndex := by
  induction xs with
  | nil => intro n; rfl
  | cons it rest ih => intro n; simp [reindexFrom, ih]; rfl

theorem reindexFrom_map_itemIndex (xs : List LineItem) :
    ∀ n, (reindexFrom n xs).map LineItem.itemIndex =
      List.range' n xs.length := by
  induction xs with
  | nil => intro n; rfl
  | cons it rest ih => intro n; simp [reindexFrom, ih, List.range']

theorem sectionSum_reindexFrom (k : Nat) (xs : List LineItem) :
    ∀ n, sectionSum (reindexFrom n xs) k = sectionSum xs k := by
  induction xs with
  | nil => intro n; rfl
  | cons it rest ih =>
      intro n
      have ihn := ih (n + 1)
      simp only [sectionSum, sectionItems] at ihn ⊢
      simp only [reindexFrom, List.filter_cons]
      by_cases h : sectionKey it == k
      · simp [sectionKey_update, h, ihn]
      · simp [sectionKey_update, h, ihn]

theorem mem_dedupFirst : ∀ (l : List Nat) (x : Nat),
    x ∈ dedupFirst l ↔ x ∈ l := by
  intro l
  induction l using dedupFirst.induct with
  | case1 => intro x; simp [dedupFirst]
  | case2 k ks ih =>
      intro x
      simp only [dedupFirst, List.mem_cons]
      constructor
      · rintro (rfl | hx)
        · exact .inl rfl
        · exact .inr (List.mem_of_mem_filter ((ih x).mp hx))
      · rintro (rfl | hx)
        · exact .inl rfl
        · by_cases hxk : x = k
          · exact .inl hxk
          · exact .inr ((ih x).mpr (List.mem_filter.mpr ⟨hx, by simp [hxk]⟩))

theorem mem_sectionKeys (xs : List LineItem) (k : Nat) :
    k ∈ sectionKeys xs ↔ ∃ it ∈ xs, sectionKey it = k := by
  simp [sectionKeys, mem_dedupFirst, List.mem_map, eq_comm]

theorem dedupFirst_const : ∀ (l : List Nat) (b : Nat),
    (∀ x ∈ l, x = b) → l ≠ [] → dedupFirst l = [b] := by
  intro l
  induction l with
  | nil => intro b h hne; exact absurd rfl hne
  | cons k ks ih =>
      intro b h _
      have hk : k = b := h k (by simp)
      subst hk
      have hf : ks.filter (fun x => !decide (x = k)) = [] := by
        apply List.filter_eq_nil_iff.mpr
        intro a ha
        have : a = k := h a (by simp [ha])
        simp [this]
      simp [dedupFirst, hf]

theorem bestKey_mem (d : Nat → ℚ) : ∀ (ks : List Nat) (b : Nat),
    bestKey d ks b = b ∨ bestKey d ks b ∈ ks := by
  intro ks
  induction ks with
  | nil => intro b; exact .inl rfl
  | cons k ks ih =>
      intro b
      simp only [bestKey]
      by_cases h : d k < d b ∨ (d k = d b ∧ k < b)
      · simp only [if_pos h]
        rcases ih k with h1 | h1
        · exact .inr (by simp [h1])
        · exact .inr (by simp [h1])
      · simp only [if_neg h]
        rcases ih b with h1 | h1
        · exact .inl h1
        · exact .inr (by simp [h1])

theorem lexPLe_trans {a b c : ℚ × Nat} (h1 : lexPLe a b)
    (h2 : lexPLe b c) : lexPLe a c := by
  rcases h1 with h1 | ⟨h1, h1b⟩ <;> rcases h2 with h2 | ⟨h2, h2b⟩
  · exact .inl (h1.trans h2)
  · exact .inl (h2 ▸ h1)
  · exact .inl (h1 ▸ h2)
  · exact .inr ⟨h1.trans h2, h1b.trans h2b⟩

theorem bestKey_min (d : Nat → ℚ) : ∀ (ks : List Nat) (b : Nat),
    ∀ k ∈ b :: ks, lexPLe (d (bestKey d ks b), bestKey d ks b) (d k, k) := by
  intro ks
  induction ks with
  | nil =>
      intro b k hk
      simp only [List.mem_cons, List.not_mem_nil, or_false] at hk
      subst hk
      exact .inr ⟨rfl, le_refl _⟩
  | cons k0 ks ih =>
      intro b k hk
      simp only [bestKey]
      by_cases h : d k0 < d b ∨ (d k0 = d b ∧ k0 < b)
      · simp only [if_pos h]
        have hstep : lexPLe (d k0, k0) (d b, b) := by
          rcases h with h | ⟨h, hb⟩
          · exact .inl h
          · exact .inr ⟨h, le_of_lt hb⟩
        have hhead := ih k0 k0 (List.mem_cons_self _ _)
        rcases List.mem_cons.mp hk with rfl | hk2
        · exact lexPLe_trans hhead hstep
        · exact ih k0 k hk2
      · simp only [if_neg h]
        push_neg at h
        obtain ⟨hlt, himp⟩ := h
        have hstep : lexPLe (d b, b) (d k0, k0) := by
          rcases eq_or_lt_of_le hlt with he | hl
          · exact .inr ⟨he, himp he.symm⟩
          · exact .inl hl
        have hhead := ih b b (List.mem_cons_self _ _)
        rcases List.mem_cons.mp hk with rfl | hk2
        · exact hhead
        · rcases List.mem_cons.mp hk2 with rfl | hk3
          · exact lexPLe_trans hhead hstep
          · exact ih b k (List.mem_cons_of_mem _ hk3)
theorem sectionKeys_sectionItems (b : Nat) (xs : List LineItem)
    (h : sectionItems b xs ≠ []) : sectionKeys (sectionItems b xs) = [b] := by
  apply dedupFirst_const
  · intro x hx
    rcases List.mem_map.mp hx with ⟨it, hit, rfl⟩
    have := (List.mem_filter.mp hit).2
    simpa using this
  · simpa using h

/-- C6: for every non-empty list of line items,
`select_line_items_for_total` returns all items renumbered 1..N in
original order when only one section index is present or the total is
null; otherwise it keeps exactly the section within tolerance of the
total that minimizes (difference, section index) lexicographically,
renumbered 1..N; and when no section is within tolerance it returns
all items renumbered (the function is total — never an error). -/
theorem select_line_items_for_total_spec
    (xs : List LineItem) (total : Option ℚ) (tol : ℚ) (hne : xs ≠ []) :
    ((sectionKeys xs).length ≤ 1 ∨ total = none →
        selectLineItemsForTotal xs total tol = reindexItems xs) ∧
    (∀ t, total = some t → 2 ≤ (sectionKeys xs).length →
        (∀ k ∈ sectionKeys xs, tol < |t - sectionSum xs k|) →
        selectLineItemsForTotal xs total tol = reindexItems xs) ∧
    (∀ t, total = some t → 2 ≤ (sectionKeys xs).length →
        ∀ k0 ∈ sectionKeys xs, |t - sectionSum xs k0| ≤ tol →
        ∃ b ∈ sectionKeys xs, |t - sectionSum xs b| ≤ tol ∧
          (∀ k ∈ sectionKeys xs, |t - sectionSum xs k| ≤ tol →
            lexPLe (|t - sectionSum xs b|, b) (|t - sectionSum xs k|, k)) ∧
          selectLineItemsForTotal xs total tol =
            reindexItems (sectionItems b xs)) ∧
    (∀ ys : List LineItem,
        (reindexItems ys).map LineItem.itemIndex =
          List.range' 1 ys.length ∧
        (reindexItems ys).map stripIndex = ys.map stripIndex) := by
  refine ⟨?_, ?_, ?_, ?_⟩
  · rintro (hlen | rfl)
    · cases total with
      | none => simp [selectLineItemsForTotal, hne]
      | some t => simp [selectLineItemsForTotal, hne, hlen]
    · simp [selectLineItemsForTotal, hne]
  · rintro t rfl hlen hall
    have hnotle : ¬ (sectionKeys xs).length ≤ 1 := by omega
    have hfil : (sectionKeys xs).filter
        (fun k => |t - sectionSum xs k| ≤ tol) = [] := by
      apply List.filter_eq_nil_iff.mpr
      intro k hk
      simpa using not_le.mpr (hall k hk)
    simp [selectLineItemsForTotal, hne, hnotle, hfil]
  · rintro t rfl hlen k0 hk0 hk0tol
    have hnotle : ¬ (sectionKeys xs).length ≤ 1 := by omega
    have hk0fil : k0 ∈ (sectionKeys xs).filter
        (fun k => |t - sectionSum xs k| ≤ tol) :=
      List.mem_filter.mpr ⟨hk0, by simpa using hk0tol⟩
    rcases hfs : (sectionKeys xs).filter
        (fun k => |t - sectionSum xs k| ≤ tol) with _ | ⟨m, ms⟩
    · rw [hfs] at hk0fil
      simp at hk0fil
    · have hbmem : bestKey (fun k => |t - sectionSum xs k|) ms m ∈ m :: ms := by
        rcases bestKey_mem (fun k => |t - sectionSum xs k|) ms m with h | h
        · rw [h]; exact List.mem_cons_self _ _
        · exact List.mem_cons_of_mem _ h
      have hbfil : bestKey (fun k => |t - sectionSum xs k|) ms m ∈
          (sectionKeys xs).filter (fun k => |t - sectionSum xs k| ≤ tol) := by
        rw [hfs]; exact hbmem
      have hbkeys := (List.mem_filter.mp hbfil).1
      have hbtol : |t - sectionSum xs
          (bestKey (fun k => |t - sectionSum xs k|) ms m)| ≤ tol := by
        simpa using (List.mem_filter.mp hbfil).2
      refine ⟨_, hbkeys, hbtol, ?_, ?_⟩
      · intro k hk hktol
        have hkmem : k ∈ m :: ms := by
          rw [← hfs]
          exact List.mem_filter.mpr ⟨hk, by simpa using hktol⟩
        exact bestKey_min (fun k => |t - sectionSum xs k|) ms m k hkmem
      · simp [selectLineItemsForTotal, hne, hnotle, hfs]
  · intro ys
    exact ⟨reindexFrom_map_itemIndex ys 1, reindexFrom_map_stripIndex ys 1⟩

/-- Closed instance of `select_line_items_for_total_spec`: a
single-item list with a null total is returned whole, renumbered. -/
theorem select_line_items_for_total_spec_witness :
    selectLineItemsForTotal [emptyItem] none 1 = reindexItems [emptyItem] :=
  (select_line_items_for_total_spec [emptyItem] none 1 (by decide)).1
    (Or.inr rfl)

/-- C7: `select_line_items_for_total` is idempotent — applying it a
second time with the same total and tolerance to its own output
returns that output exactly (in particular the same items, with
`item_index` renumbering already fixed). -/
theorem select_line_items_for_total_idem
    (xs : List LineItem) (total : Option ℚ) (tol : ℚ) :
    selectLineItemsForTotal (selectLineItemsForTotal xs total tol) total tol =
      selectLineItemsForTotal xs total tol := by
  by_cases hxs : xs = []
  · subst hxs
    simp [selectLineItemsForTotal]
  · have hrne : reindexItems xs ≠ [] := reindexFrom_ne_nil xs 1 hxs
    cases total with
    | none =>
        have h1 : selectLineItemsForTotal xs none tol = reindexItems xs := by
          simp [selectLineItemsForTotal, hxs]
        rw [h1]
        simp [selectLineItemsForTotal, hrne, reindexItems,
          reindexFrom_reindexFrom]
    | some t =>
        by_cases hlen : (sectionKeys xs).length ≤ 1
        · have h1 : selectLineItemsForTotal xs (some t) tol = reindexItems xs := by
            simp [selectLineItemsForTotal, hxs, hlen]
          rw [h1]
          have hkeys : (sectionKeys (reindexItems xs)).length ≤ 1 := by
            rw [reindexItems, sectionKeys_reindexFrom]; exact hlen
          have hrne2 := hrne
          simp only [reindexItems] at hrne2 hkeys
          simp only [reindexItems]
          simp [selectLineItemsForTotal, hrne2, hkeys,
            reindexFrom_reindexFrom]
          simp [reindexItems, reindexFrom_reindexFrom]
        · rcases hfs : (sectionKeys xs).filter
              (fun k => |t - sectionSum xs k| ≤ tol) with _ | ⟨m, ms⟩
          · have h1 : selectLineItemsForTotal xs (some t) tol = reindexItems xs := by
              simp [selectLineItemsForTotal, hxs, hlen, hfs]
            rw [h1]
            have hkeys : sectionKeys (reindexItems xs) = sectionKeys xs := by
              rw [reindexItems, sectionKeys_reindexFrom]
            have hfil2 : (sectionKeys (reindexItems xs)).filter
                (fun k => |t - sectionSum (reindexItems xs) k| ≤ tol) = [] := by
              rw [hkeys]
              simpa [reindexItems, sectionSum_reindexFrom] using hfs
            have hrne2 := hrne
            have hlen2 : ¬ (sectionKeys (reindexItems xs)).length ≤ 1 := by
              rw [hkeys]; exact hlen
            simp only [reindexItems] at hrne2 hlen2 hfil2
            simp only [reindexItems]
            simp [selectLineItemsForTotal, hrne2, hlen2, hfil2,
              reindexFrom_reindexFrom]
            simp [reindexItems, reindexFrom_reindexFrom]
          · have h1 : selectLineItemsForTotal xs (some t) tol =
                reindexItems (sectionItems
                  (bestKey (fun k => |t - sectionSum xs k|) ms m) xs) := by
              simp [selectLineItemsForTotal, hxs, hlen, hfs]
            have hbmem : bestKey (fun k => |t - sectionSum xs k|) ms m ∈
                m :: ms := by
              rcases bestKey_mem (fun k => |t - sectionSum xs k|) ms m with h | h
              · rw [h]; exact List.mem_cons_self _ _
              · exact List.mem_cons_of_mem _ h
            have hbkeys : bestKey (fun k => |t - sectionSum xs k|) ms m ∈
                sectionKeys xs := by
              have : bestKey (fun k => |t - sectionSum xs k|) ms m ∈
                  (sectionKeys xs).filter
                    (fun k => |t - sectionSum xs k| ≤ tol) := by
                rw [hfs]; exact hbmem
              exact (List.mem_filter.mp this).1
            rcases (mem_sectionKeys xs _).mp hbkeys with ⟨it, hit, hkey⟩
            have hysne : sectionItems
                (bestKey (fun k => |t - sectionSum xs k|) ms m) xs ≠ [] := by
              intro hnil
              have : it ∈ sectionItems
                  (bestKey (fun k => |t - sectionSum xs k|) ms m) xs :=
                List.mem_filter.mpr ⟨hit, by simp [hkey]⟩
              rw [hnil] at this
              simp at this
            have hrne2 : reindexItems (sectionItems
                (bestKey (fun k => |t - sectionSum xs k|) ms m) xs) ≠ [] :=
              reindexFrom_ne_nil _ 1 hysne
            have hkeys2 : sectionKeys (reindexItems (sectionItems
                (bestKey (fun k => |t - sectionSum xs k|) ms m) xs)) =
                [bestKey (fun k => |t - sectionSum xs k|) ms m] := by
              rw [reindexItems, sectionKeys_reindexFrom]
              exact sectionKeys_sectionItems _ xs hysne
            rw [h1]
            simp only [reindexItems] at hrne2 hkeys2
            simp only [reindexItems]
            simp [selectLineItemsForTotal, hrne2, hkeys2,
              reindexFrom_reindexFrom]
            simp [reindexItems, reindexFrom_reindexFrom]

/-- One extracted page record as consumed by `run_validation`
(`page` number and `word_count`). -/
structure PageRec where
  page : Int
  wordCount : Int
deriving DecidableEq, Repr

/-- The parts of the raw extraction result read by `run_validation`;
word, table-cell and link records are opaque strings here. -/
structure RawResult where
  pages : List PageRec
  textWords : List String
  tablesRaw : List String
  links : List String
deriving DecidableEq, Repr

/-- The business-summary totals read by `run_validation`. -/
structure SummaryTotals where
  totalValue : Option ℚ
  lineItemsTotalValue : Option ℚ
  overallTotalValue : Option ℚ
deriving DecidableEq, Repr

/-- The `validation` section of the config: `money_tolerance` and
`critical_rules`. -/
structure ValidationConfig where
  moneyTolerance : ℚ
  criticalRules : List String
deriving DecidableEq, Repr

/-- Observed/expected cell of a validation row. `leVal t` stands for
the formatted Python string `"<= {t}"`, `pairVal` for the
`"total=..., ...=..."` messages, `noneVal` for `None`. -/
inductive ObsVal where
  | intVal (n : Int)
  | strVal (s : String)
  | ratVal (q : ℚ)
  | leVal (t : ℚ)
  | pairVal (a b : Option ℚ)
  | noneVal
deriving DecidableEq, Repr

/-- One validation report row, as built by `add` in `run_validation`. -/
structure ValidationRow where
  file : String
  ruleId : String
  severity : String
  status : String
  observedValue : ObsVal
  expectedValue : ObsVal
  details : String
deriving DecidableEq, Repr

/-- Embeds `_status` from `validate.py`. -/
def statusStr (ok : Bool) : String :=
  if ok then "PASS" else "FAIL"

/-- Round half to even (Python 3 `round`) at integer scale. -/
def roundHalfEven (x : ℚ) : ℤ :=
  let n := ⌊x⌋
  let r := x - (n : ℚ)
  if r < 1/2 then n
  else if 1/2 < r then n + 1
  else if n % 2 = 0 then n else n + 1

/-- Python `round(x, 6)` on the exact rational model. -/
def round6 (x : ℚ) : ℚ :=
  (roundHalfEven (x * 1000000) : ℚ) / 1000000

/-- Embeds `run_validation` from `validate.py`: the eight fixed rules
in source order, and the critical-failure flag. -/
def runValidation (fileName : String) (raw : RawResult)
    (lineItems : List LineItem) (summary : SummaryTotals)
    (cfg : ValidationConfig) : List ValidationRow × Bool :=
  let tol := cfg.moneyTolerance
  let mkRow : String → String → Bool → ObsVal → ObsVal → String →
      ValidationRow := fun ruleId severity ok observed expected details =>
    { file := fileName, ruleId := ruleId, severity := severity,
      status := statusStr ok, observedValue := observed,
      expectedValue := expected, details := details }
  let pageZeros := (raw.pages.filter (fun p => p.wordCount == 0)).map
    (fun p => p.page)
  let row1 := mkRow "page_presence" "critical" (!raw.pages.isEmpty)
    (.intVal raw.pages.length) (.strVal ">0")
    "At least one page must be extracted."
  let row2 := mkRow "word_presence" "high" (!raw.textWords.isEmpty)
    (.intVal raw.textWords.length) (.strVal ">0")
    "Word layer should not be empty."
  let row3 := mkRow "word_coverage_per_page" "high" pageZeros.isEmpty
    (if pageZeros.isEmpty then .noneVal
     else .strVal (String.intercalate "," (pageZeros.map toString)))
    (.strVal "none") "Each page should have at least one extracted word."
  let row4 := mkRow "table_presence" "critical" (!raw.tablesRaw.isEmpty)
    (.intVal raw.tablesRaw.length) (.strVal ">0")
    "At least one table cell expected for quote-style PDFs."
  let row5 := mkRow "line_item_presence" "critical" (!lineItems.isEmpty)
    (.intVal lineItems.length) (.strVal ">0")
    "At least one parsed line item expected."
  let row6 :=
    match summary.totalValue, summary.lineItemsTotalValue with
    | some tv, some lt =>
        mkRow "total_vs_line_items" "critical" (|tv - lt| ≤ tol)
          (.ratVal (round6 |tv - lt|)) (.leVal tol)
          "TOTAL should reconcile with sum of parsed line item net totals."
    | tv, lt =>
        mkRow "total_vs_line_items" "critical" false
          (.pairVal tv lt) (.strVal "both numeric")
          "Unable to reconcile totals because at least one value is missing."
  let row7 :=
    match summary.totalValue, summary.overallTotalValue with
    | some tv, some ov =>
        mkRow "total_vs_overall_total" "critical" (|tv - ov| ≤ tol)
          (.ratVal (round6 |tv - ov|)) (.leVal tol)
          "TOTAL and Overall Total should match."
    | tv, ov =>
        mkRow "total_vs_overall_total" "critical" false
          (.pairVal tv ov) (.strVal "both numeric")
          "Unable to compare TOTAL and Overall Total."
  let row8 := mkRow "link_capture" "medium" true
    (.intVal raw.links.length) (.strVal "n/a")
    "Link extraction is informational and non-blocking."
  let report := [row1, row2, row3, row4, row5, row6, row7, row8]
  let criticalFailed := report.any
    (fun row => row.ruleId ∈ cfg.criticalRules ∧ row.status = "FAIL")
  (report, criticalFailed)

/-- C10: for every input, `run_validation` returns exactly eight rows,
one per rule, always in the fixed source order, the last being
`link_capture` with status PASS; and the returned critical-failure
flag is true iff some row whose `rule_id` is in the configured
critical set has status FAIL. -/
theorem run_validation_report_shape (fileName : String) (raw : RawResult)
    (lineItems : List LineItem) (summary : SummaryTotals)
    (cfg : ValidationConfig) :
    ((runValidation fileName raw lineItems summary cfg).1).map
        (fun r => r.ruleId) =
      ["page_presence", "word_presence", "word_coverage_per_page",
       "table_presence", "line_item_presence", "total_vs_line_items",
       "total_vs_overall_total", "link_capture"] ∧
    ((runValidation fileName raw lineItems summary cfg).1).length = 8 ∧
    (((runValidation fileName raw lineItems summary cfg).1).map
        (fun r => (r.ruleId, r.status))).getLast? =
      some ("link_capture", "PASS") ∧
    ((runValidation fileName raw lineItems summary cfg).2 = true ↔
      ∃ row ∈ (runValidation fileName raw lineItems summary cfg).1,
        row.ruleId ∈ cfg.criticalRules ∧ row.status = "FAIL") := by
  obtain ⟨tv, lt, ov⟩ := summary
  cases tv <;> cases lt <;> cases ov <;>
    simp [runValidation, statusStr, List.any_eq_true]

/-- Input of the repository test
`test_validation_overall_total_missing_is_non_blocking`: one page with
five words, one table cell, consistent totals, missing overall total. -/
def overallMissingRaw : RawResult :=
  { pages := [{ page := 1, wordCount := 5 }], textWords := ["hello"],
    tablesRaw := ["x"], links := [] }

/-- The single line item of that test. -/
def overallMissingItems : List LineItem :=
  [{ emptyItem with netTotalValue := some 100 }]

/-- The business summary of that test: `overall_total_value` is null. -/
def overallMissingSummary : SummaryTotals :=
  { totalValue := some 100, lineItemsTotalValue := some 100,
    overallTotalValue := none }

/-- The config of that test: `total_vs_overall_total` is critical. -/
def overallMissingCfg : ValidationConfig :=
  { moneyTolerance := 1/100, criticalRules := ["total_vs_overall_total"] }

/-- C1 (code bug): on the exact input of the repository's own test
`test_validation_overall_total_missing_is_non_blocking` — overall
total missing, everything else consistent — `run_validation` marks
`total_vs_overall_total` FAIL and reports a critical failure, whereas
the spec (and that test) require PASS and no critical failure when
the overall total is absent. -/
theorem total_vs_overall_total_missing_fails :
    ((runValidation "sample.pdf" overallMissingRaw overallMissingItems
        overallMissingSummary overallMissingCfg).1.map
        (fun r => (r.ruleId, r.status))) =
      [("page_presence", "PASS"), ("word_presence", "PASS"),
       ("word_coverage_per_page", "PASS"), ("table_presence", "PASS"),
       ("line_item_presence", "PASS"), ("total_vs_line_items", "PASS"),
       ("total_vs_overall_total", "FAIL"), ("link_capture", "PASS")] ∧
    (runValidation "sample.pdf" overallMissingRaw overallMissingItems
        overallMissingSummary overallMissingCfg).2 = true := by
  constructor <;>
    norm_num [runValidation, overallMissingRaw, overallMissingItems,
      overallMissingSummary, overallMissingCfg, statusStr]

/-- Closed instance of `run_validation_report_shape` at an empty raw
result with no critical rules. -/
theorem run_validation_report_shape_witness :
    ((runValidation "w.pdf"
        { pages := [], textWords := [], tablesRaw := [], links := [] } []
        { totalValue := none, lineItemsTotalValue := none,
          overallTotalValue := none }
        { moneyTolerance := 0, criticalRules := [] }).1).length = 8 :=
  (run_validation_report_shape "w.pdf"
    { pages := [], textWords := [], tablesRaw := [], links := [] } []
    { totalValue := none, lineItemsTotalValue := none,
      overallTotalValue := none }
    { moneyTolerance := 0, criticalRules := [] }).2.1

/-- Does `pre` start the list `s`? (helper for Python's substring `in`). -/
def listStartsWith : List Char → List Char → Bool
  | [], _ => true
  | _ :: _, [] => false
  | a :: as, b :: bs => a == b && listStartsWith as bs

/-- Python's substring test `needle in s`. -/
def listContains (needle : List Char) : List Char → Bool
  | [] => needle.isEmpty
  | c :: rest => listStartsWith needle (c :: rest) || listContains needle rest

/-- The mojibake euro marker literal in `parse_currency_code`
(the UTF-8 bytes of the euro sign read back as Latin text). -/
def euroMojibake : List Char :=
  [Char.ofNat 0xE2, Char.ofNat 0x201A, Char.ofNat 0xAC]

/-- The mojibake pound marker literal in `parse_currency_code`. -/
def poundMojibake : List Char :=
  [Char.ofNat 0xC2, Char.ofNat 0xA3]

/-- Embeds `parse_currency_code` from `normalize.py`: a falsy input
(null or empty) returns null; else the symbol / ISO-code checks run in
USD, EUR, GBP priority order; an undetected non-empty input returns
the given default. -/
def parseCurrencyCode (raw : Option (List Char)) (dft : List Char) :
    Option (List Char) :=
  match raw with
  | none => none
  | some s =>
      if s = [] then none
      else
        let upper := s.map Char.toUpper
        if listContains "USD".toList upper = true ∨ '$' ∈ s then
          some "USD".toList
        else if listContains "EUR".toList upper = true ∨ Char.ofNat 0x20AC ∈ s ∨
            listContains euroMojibake s = true then
          some "EUR".toList
        else if listContains "GBP".toList upper = true ∨ Char.ofNat 0xA3 ∈ s ∨
            listContains poundMojibake s = true then
          some "GBP".toList
        else some dft

/-- Python `a or b` on optional strings (None and "" are falsy), as in
`total_raw or overall_total_raw`. -/
def pyOrStr (a b : Option (List Char)) : Option (List Char) :=
  if a = none ∨ a = some [] then b else a

/-- The `summary["currency"]` assignment of `extract_business_summary`
(business.py line 300):
`parse_currency_code(total_raw or overall_total_raw, currency_default)`. -/
def summaryCurrency (totalRaw overallRaw : Option (List Char))
    (dft : List Char) : Option (List Char) :=
  parseCurrencyCode (pyOrStr totalRaw overallRaw) dft

/-- The behavior the spec sentence claims for `parse_currency_code`:
identical matching, but the default is returned "including when the
input is null or empty". -/
def specParseCurrencyCode (raw : Option (List Char)) (dft : List Char) :
    Option (List Char) :=
  match raw with
  | none => some dft
  | some s =>
      if s = [] then some dft
      else
        let upper := s.map Char.toUpper
        if listContains "USD".toList upper = true ∨ '$' ∈ s then
          some "USD".toList
        else if listContains "EUR".toList upper = true ∨ Char.ofNat 0x20AC ∈ s ∨
            listContains euroMojibake s = true then
          some "EUR".toList
        else if listContains "GBP".toList upper = true ∨ Char.ofNat 0xA3 ∈ s ∨
            listContains poundMojibake s = true then
          some "GBP".toList
        else some dft

/-- C8 counterexample: on a null input `parse_currency_code` returns
null, not the given default as the claim states — the code and the
claimed behavior disagree at `raw = None`, `default = "USD"`. -/
theorem parse_currency_code_null_counterexample :
    parseCurrencyCode none "USD".toList = none ∧
    specParseCurrencyCode none "USD".toList = some "USD".toList ∧
    parseCurrencyCode none "USD".toList ≠
      specParseCurrencyCode none "USD".toList := by
  refine ⟨rfl, rfl, by decide⟩

/-- C8 (amended): for non-empty input `parse_currency_code` returns
one of USD/EUR/GBP (priority order) or the given default, but a null
or empty input yields null (not the default); consequently the
summary currency is drawn from that fixed set whenever some raw total
text is non-empty, and is null when both raw totals are missing or
empty. -/
theorem parse_currency_code_spec (raw dft : List Char) (hne : raw ≠ []) :
    parseCurrencyCode (some raw) dft ∈
      [some "USD".toList, some "EUR".toList, some "GBP".toList, some dft] ∧
    parseCurrencyCode none dft = none ∧
    parseCurrencyCode (some []) dft = none ∧
    (∀ overallRaw : Option (List Char),
      summaryCurrency (some raw) overallRaw dft ∈
        [some "USD".toList, some "EUR".toList, some "GBP".toList,
         some dft]) ∧
    summaryCurrency none none dft = none ∧
    summaryCurrency (some []) (some []) dft = none := by
  have hmain : parseCurrencyCode (some raw) dft ∈
      [some "USD".toList, some "EUR".toList, some "GBP".toList,
       some dft] := by
    simp only [parseCurrencyCode, if_neg hne]
    split_ifs <;> simp
  refine ⟨hmain, rfl, rfl, ?_, rfl, rfl⟩
  intro overallRaw
  have : pyOrStr (some raw) overallRaw = some raw := by
    simp [pyOrStr, hne]
  simpa [summaryCurrency, this] using hmain

/-- Closed instance of `parse_currency_code_spec` at a concrete
undetectable input. -/
theorem parse_currency_code_spec_witness :
    parseCurrencyCode (some "total".toList) "USD".toList ∈
      [some "USD".toList, some "EUR".toList, some "GBP".toList,
       some "USD".toList] :=
  (parse_currency_code_spec "total".toList "USD".toList (by decide)).1

/-- Outcome of processing one PDF, as far as the run exit status is
concerned: either the `except Exception` branch of `process_one_pdf`
was taken, or processing finished with `run_validation`'s
critical-failure flag. -/
inductive DocOutcome where
  | procError (message : String)
  | processed (criticalFailed : Bool)
deriving DecidableEq, Repr

/-- The boolean `process_one_pdf` returns as its second component:
`True` on the exception path (pipeline.py line 135), and
`strict and critical_failed` on success (line 153). -/
def processOnePdfFlag (strict : Bool) : DocOutcome → Bool
  | .procError _ => true
  | .processed criticalFailed => strict && criticalFailed

/-- The `strict_failures` accumulator and final exit code of
`run_pipeline` (pipeline.py lines 195–252): OR of the per-document
flags, exit code 2 iff set, else 0. -/
def pipelineExitCode (strict : Bool) (outcomes : List DocOutcome) : Nat :=
  if outcomes.foldl (fun acc o => acc || processOnePdfFlag strict o) false
  then 2 else 0

theorem foldl_or_eq_any (f : DocOutcome → Bool) (os : List DocOutcome) :
    ∀ b, os.foldl (fun acc o => acc || f o) b = (b || os.any f) := by
  induction os with
  | nil => intro b; simp
  | cons o os ih =>
      intro b
      simp [List.foldl_cons, ih, Bool.or_assoc]

/-- C2 counterexample: with the strict flag unset and a single
document whose processing raised (the synthetic error payload path),
the pipeline exit code is 2, not 0 as the claim states. -/
theorem pipeline_exit_nonstrict_error_counterexample :
    pipelineExitCode false [DocOutcome.procError "boom"] = 2 ∧
    pipelineExitCode false [DocOutcome.procError "boom"] ≠ 0 := by
  refine ⟨rfl, by decide⟩

/-- C2 (amended): the pipeline exit code is 2 iff some document hit
the exception path or the strict flag is set and some document had a
critical validation failure; otherwise it is 0. In particular, with
strict unset, a document converted to a synthetic error payload still
forces exit code 2. -/
theorem pipeline_exit_code_spec (strict : Bool)
    (outcomes : List DocOutcome) :
    (pipelineExitCode strict outcomes = 2 ↔
      ∃ o ∈ outcomes, (∃ msg, o = .procError msg) ∨
        (strict = true ∧ o = .processed true)) ∧
    (pipelineExitCode strict outcomes = 0 ↔
      ¬ ∃ o ∈ outcomes, (∃ msg, o = .procError msg) ∨
        (strict = true ∧ o = .processed true)) := by
  have hflag : ∀ o : DocOutcome, processOnePdfFlag strict o = true ↔
      (∃ msg, o = .procError msg) ∨ (strict = true ∧ o = .processed true) := by
    intro o
    cases o with
    | procError msg => simp [processOnePdfFlag]
    | processed cf =>
        cases cf <;> cases strict <;> simp [processOnePdfFlag]
  constructor
  · constructor
    · intro h
      simp only [pipelineExitCode, foldl_or_eq_any, Bool.false_or] at h
      rcases hany : outcomes.any (processOnePdfFlag strict) with _ | _
      · rw [hany] at h; simp at h
      · rcases List.any_eq_true.mp hany with ⟨o, ho, hfo⟩
        exact ⟨o, ho, (hflag o).mp hfo⟩
    · rintro ⟨o, ho, hor⟩
      have : outcomes.any (processOnePdfFlag strict) = true :=
        List.any_eq_true.mpr ⟨o, ho, (hflag o).mpr hor⟩
      simp [pipelineExitCode, foldl_or_eq_any, this]
  · constructor
    · intro h hex
      rcases hex with ⟨o, ho, hor⟩
      have : outcomes.any (processOnePdfFlag strict) = true :=
        List.any_eq_true.mpr ⟨o, ho, (hflag o).mpr hor⟩
      simp [pipelineExitCode, foldl_or_eq_any, this] at h
    · intro h
      rcases hany : outcomes.any (processOnePdfFlag strict) with _ | _
      · simp [pipelineExitCode, foldl_or_eq_any, hany]
      · rcases List.any_eq_true.mp hany with ⟨o, ho, hfo⟩
        exact absurd ⟨o, ho, (hflag o).mp hfo⟩ h

/-- Closed instance of `pipeline_exit_code_spec`: strict set, one
critical failure, exit code 2. -/
theorem pipeline_exit_code_spec_witness :
    pipelineExitCode true [DocOutcome.processed true] = 2 :=
  (pipeline_exit_code_spec true [DocOutcome.processed true]).1.mpr
    ⟨DocOutcome.processed true, by simp, Or.inr ⟨rfl, rfl⟩⟩

theorem digit_char_facts (x : Char) (h : x.isDigit = true) :
    x ≠ ',' ∧ x ≠ '.' ∧ x ≠ '+' ∧ x ≠ '-' ∧ isStrippedChar x = false ∧
      x.isWhitespace = false := by
  refine ⟨?_, ?_, ?_, ?_, ?_, ?_⟩
  · rintro rfl; exact absurd h (by decide)
  · rintro rfl; exact absurd h (by decide)
  · rintro rfl; exact absurd h (by decide)
  · rintro rfl; exact absurd h (by decide)
  · by_contra hs
    rw [Bool.not_eq_false] at hs
    simp only [isStrippedChar, Bool.or_eq_true, decide_eq_true_eq] at hs
    rcases hs with (rfl | rfl) | rfl <;> exact absurd h (by decide)
  · by_contra hw
    rw [Bool.not_eq_false] at hw
    simp only [Char.isWhitespace, Bool.or_eq_true, decide_eq_true_eq] at hw
    rcases hw with ((rfl | rfl) | rfl) | rfl <;> exact absurd h (by decide)

theorem numtok_char_facts (x : Char)
    (hx : x.isDigit = true ∨ x = ',' ∨ x = '.') :
    x ≠ '+' ∧ x ≠ '-' ∧ isStrippedChar x = false ∧
      x.isWhitespace = false := by
  rcases hx with h | rfl | rfl
  · obtain ⟨_, _, h3, h4, h5, h6⟩ := digit_char_facts x h
    exact ⟨h3, h4, h5, h6⟩
  · refine ⟨by decide, by decide, by decide, by decide⟩
  · refine ⟨by decide, by decide, by decide, by decide⟩

theorem dropWhile_eq_self_of_none (p : Char → Bool) (l : List Char)
    (h : ∀ x ∈ l, p x = false) : l.dropWhile p = l := by
  cases l with
  | nil => rfl
  | cons a l =>
      rw [List.dropWhile_cons_of_neg]
      simp [h a (by simp)]

theorem pyStrip_eq_self (l : List Char)
    (h : ∀ x ∈ l, x.isWhitespace = false) : pyStrip l = l := by
  unfold pyStrip
  rw [dropWhile_eq_self_of_none _ _ h,
    dropWhile_eq_self_of_none _ _
      (fun x hx => h x (List.mem_reverse.mp hx)),
    List.reverse_reverse]

theorem length_splitOnP (p : Char → Bool) (xs : List Char) :
    (xs.splitOnP p).length = xs.countP p + 1 := by
  induction xs with
  | nil => simp [List.splitOnP_nil]
  | cons x xs ih =>
      rw [List.splitOnP_cons]
      by_cases h : p x
      · simp [h, ih, List.countP_cons]
      · simpa [h, List.countP_cons] using ih

theorem length_splitOn (s : Char) (c : List Char) :
    (c.splitOn s).length = c.count s + 1 := by
  simp [List.splitOn, length_splitOnP, List.count]

theorem flatten_splitOnP (p : Char → Bool) (xs : List Char) :
    (xs.splitOnP p).flatten = xs.filter (fun x => !p x) := by
  induction xs with
  | nil => simp [List.splitOnP_nil]
  | cons x xs ih =>
      rw [List.splitOnP_cons]
      by_cases h : p x
      · simp [h, ih]
      · rcases hsp : xs.splitOnP p with _ | ⟨hd, tl⟩
        · exact absurd hsp (List.splitOnP_ne_nil _ _)
        · rw [hsp] at ih
          simp only [List.flatten_cons] at ih
          simp [h, List.modifyHead, ih]

theorem flatten_splitOn (s : Char) (c : List Char) :
    (c.splitOn s).flatten = c.filter (fun x => x ≠ s) := by
  rw [List.splitOn, flatten_splitOnP]
  congr 1
  funext x
  by_cases hx : x = s <;> simp [hx]

/-- The comma/dot dispatch of `_normalize_numeric_token` applied to an
already-clean unsigned token (the value of `cleaned` after the
separator resolution step). -/
def sepResolve (c : List Char) (allow : Bool) : List Char :=
  if c.count ',' ≠ 0 ∧ c.count '.' ≠ 0 then
    if lastSepIsComma c then
      (c.filter (· ≠ '.')).map (fun x => if x = ',' then '.' else x)
    else c.filter (· ≠ ',')
  else if c.count ',' ≠ 0 then normalizeSingleSeparator c ',' allow
  else if c.count '.' ≠ 0 then normalizeSingleSeparator c '.' allow
  else c

theorem mem_normalizeSingleSeparator (c : List Char) (sep : Char)
    (allow : Bool) (x : Char) (hx : x ∈ c) (hxs : x ≠ sep) :
    x ∈ normalizeSingleSeparator c sep allow := by
  have hxf : x ∈ (c.splitOn sep).flatten := by
    rw [flatten_splitOn]
    exact List.mem_filter.mpr ⟨hx, by simp [hxs]⟩
  simp only [normalizeSingleSeparator]
  rcases hsp : c.splitOn sep with _ | ⟨p1, t1⟩
  · simp [List.splitOn] at hsp
    exact absurd hsp (List.splitOnP_ne_nil _ _)
  · rw [hsp] at hxf
    rcases t1 with _ | ⟨p2, t2⟩
    · simpa using hx
    · rcases t2 with _ | ⟨p3, t3⟩
      · rw [if_neg (by simp only [List.length_cons, List.length_nil]; omega),
          if_neg (by simp only [List.length_cons, List.length_nil]; omega)]
        simp only [List.headD, List.getLastD]
        have hx12 : x ∈ p1 ++ p2 := by simpa using hxf
        split_ifs
        · exact hx12
        · exact hx12
        · rcases List.mem_append.mp hx12 with h | h
          · exact List.mem_append.mpr (.inl h)
          · exact List.mem_append.mpr (.inr (List.mem_cons_of_mem _ h))
      · rw [if_neg (by simp only [List.length_cons, List.length_nil]; omega),
          if_pos (by simp only [List.length_cons, List.length_nil]; omega)]
        have hplne : p1 :: p2 :: p3 :: t3 ≠ [] := by simp
        have hdec := List.dropLast_append_getLast hplne
        have hlastd : (p1 :: p2 :: p3 :: t3).getLastD [] =
            (p1 :: p2 :: p3 :: t3).getLast hplne := by
          rw [List.getLastD_eq_getLast?, List.getLast?_eq_getLast _ hplne]
          rfl
        have hsplit : x ∈ (p1 :: p2 :: p3 :: t3).dropLast.flatten ∨
            x ∈ (p1 :: p2 :: p3 :: t3).getLast hplne := by
          rw [← hdec, List.flatten_append] at hxf
          simpa using List.mem_append.mp hxf
        split_ifs with hth hl
        · exact hxf
        · rcases hsplit with h | h
          · simpa using h
          · rw [← hlastd, hl] at h
            simp at h
        · rcases hsplit with h | h
          · exact List.mem_append.mpr (.inl h)
          · refine List.mem_append.mpr (.inr ?_)
            rw [hlastd]
            exact List.mem_cons_of_mem _ h

theorem not_degenerate_of_digit (l : List Char)
    (h : ∃ y ∈ l, y.isDigit = true) :
    ¬(l = [] ∨ l = ['+'] ∨ l = ['-'] ∨ l = ['.'] ∨ l = ['+', '.'] ∨
      l = ['-', '.']) := by
  obtain ⟨y, hy, hyd⟩ := h
  rintro (rfl | rfl | rfl | rfl | rfl | rfl) <;>
    simp only [List.mem_singleton, List.mem_cons,
      List.not_mem_nil, or_false] at hy
  · subst hy; exact absurd hyd (by decide)
  · subst hy; exact absurd hyd (by decide)
  · subst hy; exact absurd hyd (by decide)
  · rcases hy with rfl | rfl <;> exact absurd hyd (by decide)
  · rcases hy with rfl | rfl <;> exact absurd hyd (by decide)

theorem sepResolve_has_digit (c : List Char) (allow : Bool)
    (hdig : ∃ x ∈ c, x.isDigit = true) :
    ∃ y ∈ sepResolve c allow, y.isDigit = true := by
  obtain ⟨x, hx, hxd⟩ := hdig
  obtain ⟨hc1, hc2, _, _, _, _⟩ := digit_char_facts x hxd
  unfold sepResolve
  split_ifs with h1 h2 h3 h4
  · refine ⟨x, ?_, hxd⟩
    refine List.mem_map.mpr ⟨x, List.mem_filter.mpr ⟨hx, by simp [hc2]⟩, ?_⟩
    simp [hc1]
  · exact ⟨x, List.mem_filter.mpr ⟨hx, by simp [hc1]⟩, hxd⟩
  · exact ⟨x, mem_normalizeSingleSeparator c ',' allow x hx hc1, hxd⟩
  · exact ⟨x, mem_normalizeSingleSeparator c '.' allow x hx hc2, hxd⟩
  · exact ⟨x, hx, hxd⟩

/-- For a clean unsigned token over the digits/comma/dot alphabet that
contains a digit, `_normalize_numeric_token` succeeds and returns
exactly the separator-resolution of the token. -/
theorem normalizeNumericToken_of_charset (c : List Char) (allow : Bool)
    (hchar : ∀ x ∈ c, x.isDigit = true ∨ x = ',' ∨ x = '.')
    (hdig : ∃ x ∈ c, x.isDigit = true) :
    normalizeNumericToken c allow = some (sepResolve c allow) := by
  have hne : c ≠ [] := by
    rintro rfl
    obtain ⟨x, hx, _⟩ := hdig
    simp at hx
  have hclean : (pyStrip c).filter (fun x => !isStrippedChar x) = c := by
    rw [pyStrip_eq_self c
      (fun x hx => (numtok_char_facts x (hchar x hx)).2.2.2)]
    apply List.filter_eq_self.mpr
    intro a ha
    simp [(numtok_char_facts a (hchar a ha)).2.2.1]
  obtain ⟨h0, rest, rfl⟩ : ∃ h0 rest, c = h0 :: rest := by
    cases c with
    | nil => exact absurd rfl hne
    | cons h0 rest => exact ⟨h0, rest, rfl⟩
  have h0f := numtok_char_facts h0 (hchar h0 (by simp))
  have hanydig : (h0 :: rest).any (fun x => x.isDigit) = true := by
    obtain ⟨x, hx, hxd⟩ := hdig
    exact List.any_eq_true.mpr ⟨x, hx, hxd⟩
  simp only [normalizeNumericToken, hclean]
  rw [if_neg hne]
  rw [if_neg (by simp [h0f.1] : ¬(h0 :: rest).head? = some '+')]
  rw [if_neg (by simp [h0f.2.1] : ¬(h0 :: rest).head? = some '-')]
  simp only [if_pos rfl]
  rw [if_neg (by
    push_neg
    exact ⟨hne, by simp [hanydig]⟩)]
  rw [List.nil_append]
  exact if_neg (not_degenerate_of_digit _ (sepResolve_has_digit _ allow hdig))

/-- C4: when a numeric token over the digits/comma/dot alphabet
contains at least one comma and at least one dot, `parse_number`
treats whichever separator occurs last as the decimal separator and
strips every occurrence of the other as a thousands separator; in
particular `parse_number("617.572,80") = 617572.80` and
`parse_number("10.000,50", allow_thousands=True) = 10000.50`. -/
theorem parse_number_both_separators (c : List Char) (allow : Bool)
    (hchar : ∀ x ∈ c, x.isDigit = true ∨ x = ',' ∨ x = '.')
    (hdig : ∃ x ∈ c, x.isDigit = true)
    (hcomma : ',' ∈ c) (hdot : '.' ∈ c) :
    normalizeNumericToken c allow =
      some (if lastSepIsComma c then
              (c.filter (fun x => x ≠ '.')).map
                (fun x => if x = ',' then '.' else x)
            else c.filter (fun x => x ≠ ',')) ∧
    parseNumberValue "617.572,80".toList true = some (3087864 / 5 : ℚ) ∧
    parseNumberValue "10.000,50".toList true = some (20001 / 2 : ℚ) := by
  refine ⟨?_, ?_, ?_⟩
  case refine_2 =>
    have h1 : parseNumberValue "617.572,80".toList true =
        some ((1 : ℚ) * ((digitsVal "617572".toList : ℚ) +
          (digitsVal "80".toList : ℚ) / (10 : ℚ) ^ 2)) := rfl
    rw [h1, show digitsVal "617572".toList = 617572 from by decide,
      show digitsVal "80".toList = 80 from by decide]
    norm_num
  case refine_3 =>
    have h1 : parseNumberValue "10.000,50".toList true =
        some ((1 : ℚ) * ((digitsVal "10000".toList : ℚ) +
          (digitsVal "50".toList : ℚ) / (10 : ℚ) ^ 2)) := rfl
    rw [h1, show digitsVal "10000".toList = 10000 from by decide,
      show digitsVal "50".toList = 50 from by decide]
    norm_num
  case refine_1 =>
    rw [normalizeNumericToken_of_charset c allow hchar hdig]
    congr 1
    unfold sepResolve
    rw [if_pos ⟨fun h => (List.count_eq_zero.mp h) hcomma,
      fun h => (List.count_eq_zero.mp h) hdot⟩]

/-- Closed instance of `parse_number_both_separators`: the comma is
last in `"1.5,2"`, so the dot is stripped and the comma becomes the
decimal point. -/
theorem parse_number_both_separators_witness :
    normalizeNumericToken "1.5,2".toList true =
      some (if lastSepIsComma "1.5,2".toList then
              ("1.5,2".toList.filter (fun x => x ≠ '.')).map
                (fun x => if x = ',' then '.' else x)
            else "1.5,2".toList.filter (fun x => x ≠ ',')) :=
  (parse_number_both_separators "1.5,2".toList true (by decide) (by decide)
    (by decide) (by decide)).1

/-- The multi-occurrence single-separator rule as the claim words it:
all separators are thousands separators exactly when grouping is
enabled and all but the LAST group are exactly three digits;
otherwise the last occurrence becomes the decimal point and the rest
are stripped. -/
def specSingleSeparator (value : List Char) (sep : Char)
    (allowThousands : Bool) : List Char :=
  let parts := value.splitOn sep
  if allowThousands = true ∧
      (parts.dropLast.all fun p => p.all Char.isDigit && p.length == 3) = true
  then parts.flatten
  else
    parts.dropLast.flatten ++
      (if parts.getLastD [] = [] then [] else '.' :: parts.getLastD [])

/-- C5 counterexample: in `"12.345.678"` the groups other than the
last are `12` and `345` — not all exactly three digits — so the
claim's rule makes the last dot the decimal point (`12345.678`); the
code instead tests the groups after the FIRST (`345`, `678`) and
strips every dot (`12345678`). -/
theorem single_separator_rule_counterexample :
    normalizeSingleSeparator "12.345.678".toList '.' true =
      "12345678".toList ∧
    specSingleSeparator "12.345.678".toList '.' true =
      "12345.678".toList ∧
    normalizeSingleSeparator "12.345.678".toList '.' true ≠
      specSingleSeparator "12.345.678".toList '.' true := by
  refine ⟨by decide, by decide, by decide⟩

/-- C5 (amended): for a token containing a single separator type
occurring at least twice, `parse_number` applies the multi-occurrence
rule: every separator is stripped as a thousands separator exactly
when grouping is enabled and every group AFTER THE FIRST is exactly
three digits; otherwise the groups before the last occurrence are
joined and the last occurrence becomes the decimal point (dropped
when nothing follows it). -/
theorem parse_number_single_separator (c : List Char) (s : Char)
    (allow : Bool) (hs : s = ',' ∨ s = '.')
    (hchar : ∀ x ∈ c, x.isDigit = true ∨ x = s)
    (hdig : ∃ x ∈ c, x.isDigit = true)
    (hmulti : 2 ≤ c.count s) :
    normalizeNumericToken c allow =
      some (normalizeSingleSeparator c s allow) ∧
    ((allow = true ∧
        ((c.splitOn s).tail.all fun p =>
          p.all Char.isDigit && p.length == 3) = true) →
      normalizeSingleSeparator c s allow = c.filter (fun x => x ≠ s)) ∧
    (¬(allow = true ∧
        ((c.splitOn s).tail.all fun p =>
          p.all Char.isDigit && p.length == 3) = true) →
      normalizeSingleSeparator c s allow =
        (c.splitOn s).dropLast.flatten ++
          (if (c.splitOn s).getLastD [] = [] then []
           else '.' :: (c.splitOn s).getLastD [])) := by
  have hlen : 3 ≤ (c.splitOn s).length := by
    rw [length_splitOn]
    omega
  refine ⟨?_, ?_, ?_⟩
  · have hchar2 : ∀ x ∈ c, x.isDigit = true ∨ x = ',' ∨ x = '.' := by
      intro x hx
      rcases hchar x hx with h | rfl
      · exact .inl h
      · rcases hs with rfl | rfl
        · exact .inr (.inl rfl)
        · exact .inr (.inr rfl)
    rw [normalizeNumericToken_of_charset c allow hchar2 hdig]
    congr 1
    unfold sepResolve
    rcases hs with rfl | rfl
    · have hdotz : c.count '.' = 0 := by
        rw [List.count_eq_zero]
        intro hmem
        rcases hchar '.' hmem with h | h
        · exact absurd h (by decide)
        · exact absurd h (by decide)
      have hcc : c.count ',' ≠ 0 := by omega
      rw [if_neg (by simp [hdotz]), if_pos hcc]
    · have hcz : c.count ',' = 0 := by
        rw [List.count_eq_zero]
        intro hmem
        rcases hchar ',' hmem with h | h
        · exact absurd h (by decide)
        · exact absurd h (by decide)
      have hdc : c.count '.' ≠ 0 := by omega
      rw [if_neg (by simp [hcz]), if_neg (by simp [hcz]), if_pos hdc]
  · intro h
    simp only [normalizeSingleSeparator]
    rw [if_neg (by omega), if_pos (by omega), if_pos h]
    exact flatten_splitOn s c
  · intro h
    simp only [normalizeSingleSeparator]
    rw [if_neg (by omega), if_pos (by omega), if_neg h]

/-- Closed instance of `parse_number_single_separator`: a
well-grouped token with two dots normalizes through
`_normalize_single_separator`. -/
theorem parse_number_single_separator_witness :
    normalizeNumericToken "1.234.567".toList true =
      some (normalizeSingleSeparator "1.234.567".toList '.' true) :=
  (parse_number_single_separator "1.234.567".toList '.' true (.inr rfl)
    (by decide) (by decide) (by decide)).1

/-- Match the marker alternation `([$€£]|USD|EUR|GBP)` of
`MONEY_PATTERN` at the head of `s` (case-insensitive ISO codes),
returning the remaining characters. -/
def matchMarker (s : List Char) : Option (List Char) :=
  match s with
  | [] => none
  | c :: r =>
      if c = '$' ∨ c.toNat = 0x20AC ∨ c.toNat = 0xA3 then some r
      else
        match s with
        | a :: b :: d :: r2 =>
            let code := [a.toUpper, b.toUpper, d.toUpper]
            if code = "USD".toList ∨ code = "EUR".toList ∨
                code = "GBP".toList then some r2
            else none
        | _ => none

/-- Match `\s*` then the numeric tail of `MONEY_PATTERN` at the head
of `s`, returning the captured number group. -/
def matchNumTail (s : List Char) : Option (List Char) :=
  numTokenAt (s.dropWhile Char.isWhitespace)

/-- Match `MONEY_PATTERN` anchored at the head of `s` (group 2):
optional marker, optional whitespace, then the number; the regex
backtracks to the marker-less alternative when no number follows the
marker. -/
def moneyCandidateAt (s : List Char) : Option (List Char) :=
  match matchMarker s with
  | some rest =>
      match matchNumTail rest with
      | some tok => some tok
      | none => matchNumTail s
  | none => matchNumTail s

/-- Leftmost `MONEY_PATTERN` match in `s` (Python `re.search`),
returning its number group. -/
def findMoneyCandidate : List Char → Option (List Char)
  | [] => none
  | c :: rest =>
      match moneyCandidateAt (c :: rest) with
      | some tok => some tok
      | none => findMoneyCandidate rest

/-- Embeds `parse_currency_value` from `normalize.py` on non-null
text: the `MONEY_PATTERN` number group when found (else the whole
text) goes through `parse_number_value` with thousands grouping. -/
def parseCurrencyValue (text : List Char) : Option ℚ :=
  let t := newlinesToSpaces text
  match findMoneyCandidate t with
  | some tok => parseNumberValue tok true
  | none => parseNumberValue t true

/-- Lifts `parse_currency_value` to an optional field (`if not raw:
return None`). -/
def parseCurrencyValueOpt (raw : Option String) : Option ℚ :=
  match raw with
  | none => none
  | some s => if s = "" then none else parseCurrencyValue s.toList

/-- Words of a Python `str.split()` (split on whitespace runs),
accumulator-style. -/
def pyWordsAux : List Char → List Char → List (List Char)
  | [], cur => if cur = [] then [] else [cur.reverse]
  | c :: rest, cur =>
      if c.isWhitespace then
        if cur = [] then pyWordsAux rest []
        else cur.reverse :: pyWordsAux rest []
      else pyWordsAux rest (c :: cur)

/-- Embeds `_clean_single_line` from `template_fill.py`:
whitespace-collapse to single spaces, empty becomes null. -/
def cleanSingleLine (t : Option String) : Option String :=
  match t with
  | none => none
  | some s =>
      let ws := pyWordsAux (newlinesToSpaces s.toList) []
      if ws = [] then none
      else some (String.mk (List.intercalate [' '] ws))

/-- Match the quantity regex `[-+]?[0-9][0-9,]*(?:\.[0-9]+)?`
anchored at the head of `s`. -/
def qtyTokenAt (s : List Char) : Option (List Char) :=
  let core : List Char → Option (List Char) := fun body =>
    match body with
    | c :: rest =>
        if c.isDigit then
          let intRun := rest.takeWhile (fun x => x.isDigit || x = ',')
          let rest2 := rest.drop intRun.length
          match rest2 with
          | '.' :: d :: _ =>
              if d.isDigit then
                some ((c :: intRun) ++ '.' ::
                  (rest2.tail.takeWhile Char.isDigit))
              else some (c :: intRun)
          | _ => some (c :: intRun)
        else none
    | [] => none
  match s with
  | [] => none
  | c :: rest =>
      if c = '+' ∨ c = '-' then (core rest).map (fun tok => c :: tok)
      else core s

/-- Leftmost quantity-regex match in `s`. -/
def findQtyToken : List Char → Option (List Char)
  | [] => none
  | c :: rest =>
      match qtyTokenAt (c :: rest) with
      | some tok => some tok
      | none => findQtyToken rest

/-- Embeds `_parse_quantity` from `template_fill.py`: first quantity
token, commas stripped, read as a number (the Python int coercion of
whole values preserves the numeric value). -/
def parseQuantity (raw : Option String) : Option ℚ :=
  match raw with
  | none => none
  | some s =>
      if s = "" then none
      else
        match findQtyToken (newlinesToSpaces s.toList) with
        | none => none
        | some tok => floatOfDecimal (tok.filter (fun c => c ≠ ','))

/-- Match the percent regex `[-+]?[0-9]+(?:\.[0-9]+)?` anchored at
the head of `s`. -/
def pctTokenAt (s : List Char) : Option (List Char) :=
  let core : List Char → Option (List Char) := fun body =>
    match body with
    | c :: rest =>
        if c.isDigit then
          let intRun := rest.takeWhile Char.isDigit
          let rest2 := rest.drop intRun.length
          match rest2 with
          | '.' :: d :: _ =>
              if d.isDigit then
                some ((c :: intRun) ++ '.' ::
                  (rest2.tail.takeWhile Char.isDigit))
              else some (c :: intRun)
          | _ => some (c :: intRun)
        else none
    | [] => none
  match s with
  | [] => none
  | c :: rest =>
      if c = '+' ∨ c = '-' then (core rest).map (fun tok => c :: tok)
      else core s

/-- Leftmost percent-regex match in `s`. -/
def findPctToken : List Char → Option (List Char)
  | [] => none
  | c :: rest =>
      match pctTokenAt (c :: rest) with
      | some tok => some tok
      | none => findPctToken rest

/-- Embeds `_parse_discount_fraction` from `template_fill.py`:
the parsed percent (or the first percent token of the raw text)
divided by 100 and rounded to six decimals. -/
def parseDiscountFraction (dv : Option ℚ) (draw : Option String) :
    Option ℚ :=
  match dv with
  | some v => some (round6 (v / 100))
  | none =>
      match draw with
      | none => none
      | some s =>
          if s = "" then none
          else
            match findPctToken s.toList with
            | none => none
            | some tok =>
                (floatOfDecimal tok).map (fun v => round6 (v / 100))

/-- Embeds `_parse_sales_discount` from `template_fill.py`. -/
def parseSalesDiscount (salesPrice purchasePrice : Option ℚ)
    (euroRate marginPercent : ℚ) : Option ℚ :=
  match salesPrice, purchasePrice with
  | some sp, some pp =>
      if sp = 0 then none
      else if euroRate ≤ 0 then none
      else
        some (round6 (1 - ((pp / euroRate) * (1 + marginPercent / 100)) / sp))
  | _, _ => none

/-- Embeds `_parse_net_total` from `template_fill.py`. -/
def parseNetTotal (it : LineItem) : Option ℚ :=
  match it.netTotalValue with
  | some v => some v
  | none => parseCurrencyValueOpt it.netTotalRaw

/-- Embeds `_should_skip_template_item` from `template_fill.py`:
excluded when `net_unit_price_raw` reads "included", or when the net
total is ~zero and the sales price is null or ~zero. -/
def shouldSkipTemplateItem (it : LineItem) (salesPrice netTotal : Option ℚ) :
    Bool :=
  let includedText :=
    (pyStrip (it.netUnitPriceRaw.getD "").toList).map Char.toLower
  if includedText = "included".toList then true
  else
    match netTotal with
    | some nt =>
        if |nt| ≤ 1 / 1000000000 then
          match salesPrice with
          | none => true
          | some sp => |sp| ≤ 1 / 1000000000
        else false
    | none => false

/-- The loop-local `purchase_price` of `_build_template_rows`. -/
def itemPurchasePrice (it : LineItem) : Option ℚ :=
  match it.netUnitPriceValue with
  | some v => some v
  | none => parseCurrencyValueOpt it.netUnitPriceRaw

/-- The loop-local `sales_price` of `_build_template_rows`. -/
def itemSalesPrice (it : LineItem) : Option ℚ :=
  match it.listUnitPriceValue with
  | some v => some v
  | none => parseCurrencyValueOpt it.listUnitPriceRaw

/-- Does a line item survive the skip rule of `_build_template_rows`? -/
def itemKeep (it : LineItem) : Bool :=
  !shouldSkipTemplateItem it (itemSalesPrice it) (parseNetTotal it)

/-- Zero-padded two-digit rendering for `strftime("%m/%d/%Y")`. -/
def pad2 (n : Nat) : String :=
  if n < 10 then "0" ++ toString n else toString n

/-- Zero-padded four-digit year rendering. -/
def pad4 (n : Nat) : String :=
  if n < 10 then "000" ++ toString n
  else if n < 100 then "00" ++ toString n
  else if n < 1000 then "0" ++ toString n
  else toString n

/-- Gregorian leap year, as `datetime` uses. -/
def isLeapYear (y : Nat) : Bool :=
  (y % 4 == 0 && y % 100 != 0) || y % 400 == 0

/-- Days in a month, as `datetime` validates. -/
def daysInMonth (y m : Nat) : Nat :=
  if m = 2 then (if isLeapYear y then 29 else 28)
  else if m = 4 ∨ m = 6 ∨ m = 9 ∨ m = 11 then 30
  else 31

/-- Match `D:(\d{4})(\d{2})(\d{2})` anchored at the head of `s`. -/
def creationAt (s : List Char) : Option (List Char × List Char × List Char) :=
  match s with
  | 'D' :: ':' :: rest =>
      let d8 := rest.take 8
      if d8.length = 8 ∧ d8.all Char.isDigit = true then
        some (d8.take 4, (d8.drop 4).take 2, d8.drop 6)
      else none
  | _ => none

/-- Leftmost `D:YYYYMMDD` match in `s`. -/
def findCreation :
    List Char → Option (List Char × List Char × List Char)
  | [] => none
  | c :: rest =>
      match creationAt (c :: rest) with
      | some r => some r
      | none => findCreation rest

/-- Embeds `_parse_creation_date` from `template_fill.py`: the
`D:YYYYMMDD` metadata date reformatted `MM/DD/YYYY`, null when absent
or not a valid calendar date. -/
def parseCreationDate (raw : Option String) : Option String :=
  match raw with
  | none => none
  | some s =>
      if s = "" then none
      else
        match findCreation s.toList with
        | none => none
        | some (ys, ms, ds) =>
            let y := digitsVal ys
            let m := digitsVal ms
            let d := digitsVal ds
            if 1 ≤ y ∧ y ≤ 9999 ∧ 1 ≤ m ∧ m ≤ 12 ∧ 1 ≤ d ∧
                d ≤ daysInMonth y m then
              some (pad2 m ++ "/" ++ pad2 d ++ "/" ++ pad4 y)
            else none

/-- One output template row (the sixteen target columns built per
line item in `_build_template_rows`). -/
structure TemplateRow where
  date : Option String
  expires : Option String
  expectedClose : Option String
  item : Option String
  quantity : Option ℚ
  salesprice : Option ℚ
  salesdiscount : Option ℚ
  purchaseprice : Option ℚ
  purchaseDiscount : Option ℚ
  contractStart : Option String
  contractEnd : Option String
  serialSupported : Option String
  rebate : Option String
  opportunity : Option String
  memoLine : Option String
  quoteIdLine : Option String
deriving DecidableEq, Repr

/-- The slice of a per-file payload read by the template filler plus
the recomputed summary total (`process_one_pdf`, pipeline.py lines
103–153): `line_items_parsed` carries the parser output. -/
structure DocPayload where
  creationDateRaw : Option String
  quoteNumber : Option String
  expirationDate : Option String
  lineItemsParsed : List LineItem
  lineItemsTotalValue : Option ℚ
deriving DecidableEq, Repr

/-- Embeds the success-path payload assembly of `process_one_pdf`
(pipeline.py lines 103–153), restricted to the fields above: the
reconciled items (`select_line_items_for_total`, line 103) are used
only to recompute `line_items_total_value` (lines 108–112), while
`line_items_parsed` (line 143) is the unreconciled `line_items`. -/
def mkDocPayload (creationDateRaw quoteNumber expirationDate : Option String)
    (lineItems : List LineItem) (totalValue : Option ℚ) (tol : ℚ) :
    DocPayload :=
  let reconciled := selectLineItemsForTotal lineItems totalValue tol
  { creationDateRaw := creationDateRaw
    quoteNumber := quoteNumber
    expirationDate := expirationDate
    lineItemsParsed := lineItems
    lineItemsTotalValue :=
      if reconciled = [] then none
      else some ((reconciled.map (fun it => it.netTotalValue.getD 0)).sum) }

/-- The row built for one line item in `_build_template_rows`. -/
def templateRowOf (p : DocPayload) (euroRate marginPercent : ℚ)
    (it : LineItem) : TemplateRow :=
  { date := parseCreationDate p.creationDateRaw
    expires := p.expirationDate
    expectedClose := p.expirationDate
    item := cleanSingleLine it.sku
    quantity := parseQuantity it.unitsQty
    salesprice := itemSalesPrice it
    salesdiscount := parseSalesDiscount (itemSalesPrice it)
      (itemPurchasePrice it) euroRate marginPercent
    purchaseprice := itemPurchasePrice it
    purchaseDiscount := parseDiscountFraction it.discountPctValue
      it.discountPctRaw
    contractStart := it.termStart
    contractEnd := it.termEnd
    serialSupported := none
    rebate := none
    opportunity := p.quoteNumber
    memoLine := none
    quoteIdLine := p.quoteNumber }

/-- Embeds `_build_template_rows` from `template_fill.py`: the nested
document/item loops with the skip rule (`continue`) and `rows.append`. -/
def buildTemplateRows (payloads : List DocPayload)
    (euroRate marginPercent : ℚ) : List TemplateRow :=
  payloads.foldl (fun rows p =>
    p.lineItemsParsed.foldl (fun rows it =>
      if shouldSkipTemplateItem it (itemSalesPrice it) (parseNetTotal it)
      then rows
      else rows ++ [templateRowOf p euroRate marginPercent it]) rows) []

theorem buildTemplateRows_inner_eq (p : DocPayload) (er mp : ℚ) :
    ∀ (items : List LineItem) (rows : List TemplateRow),
      items.foldl (fun rows it =>
        if shouldSkipTemplateItem it (itemSalesPrice it) (parseNetTotal it)
        then rows
        else rows ++ [templateRowOf p er mp it]) rows =
      rows ++ (items.filter itemKeep).map (templateRowOf p er mp) := by
  intro items
  induction items with
  | nil => intro rows; simp
  | cons it rest ih =>
      intro rows
      simp only [List.foldl_cons, List.filter_cons]
      by_cases hskip : shouldSkipTemplateItem it (itemSalesPrice it)
          (parseNetTotal it) = true
      · rw [if_pos hskip, ih]
        have : itemKeep it = false := by simp [itemKeep, hskip]
        simp [this]
      · rw [if_neg hskip, ih]
        have : itemKeep it = true := by
          simp [itemKeep]
          exact Bool.not_eq_true _ ▸ (by simpa using hskip)
        simp [this]

theorem buildTemplateRows_eq (er mp : ℚ) :
    ∀ (payloads : List DocPayload) (rows0 : List TemplateRow),
      payloads.foldl (fun rows p =>
        p.lineItemsParsed.foldl (fun rows it =>
          if shouldSkipTemplateItem it (itemSalesPrice it) (parseNetTotal it)
          then rows
          else rows ++ [templateRowOf p er mp it]) rows) rows0 =
      rows0 ++ (payloads.map (fun p =>
        (p.lineItemsParsed.filter itemKeep).map
          (templateRowOf p er mp))).flatten := by
  intro payloads
  induction payloads with
  | nil => intro rows0; simp
  | cons p rest ih =>
      intro rows0
      simp only [List.foldl_cons, List.map_cons, List.flatten_cons]
      rw [buildTemplateRows_inner_eq, ih, List.append_assoc]

/-- C3 (amended): the template rows are built from each document's
`line_items_parsed` — the unreconciled parser output stored by
`process_one_pdf` — one row, in order, per line item surviving the
skip rule; the reconciled item set
(`select_line_items_for_total`) is used only to recompute the
document's `line_items_total_value` and does not feed the template. -/
theorem template_rows_from_parsed (payloads : List DocPayload)
    (er mp : ℚ) :
    buildTemplateRows payloads er mp =
      (payloads.map (fun p =>
        (p.lineItemsParsed.filter itemKeep).map
          (templateRowOf p er mp))).flatten ∧
    (∀ (cd qn ed : Option String) (items : List LineItem)
        (tv : Option ℚ) (tol : ℚ),
      (mkDocPayload cd qn ed items tv tol).lineItemsParsed = items) ∧
    (∀ (cd qn ed : Option String) (items : List LineItem)
        (tv : Option ℚ) (tol : ℚ),
      (mkDocPayload cd qn ed items tv tol).lineItemsTotalValue =
        (if selectLineItemsForTotal items tv tol = [] then none
         else some (((selectLineItemsForTotal items tv tol).map
           (fun it => it.netTotalValue.getD 0)).sum))) := by
  refine ⟨?_, fun _ _ _ _ _ _ => rfl, fun _ _ _ _ _ _ => rfl⟩
  rw [buildTemplateRows, buildTemplateRows_eq]
  simp

/-- First line item of the reconciliation-vs-template scenario
(section 1). -/
def c3ItemA : LineItem :=
  { emptyItem with sku := some "NK-A", quoteSectionIndex := some 1 }

/-- Second line item (section 1). -/
def c3ItemB : LineItem :=
  { emptyItem with sku := some "NK-B", quoteSectionIndex := some 1 }

/-- Third line item (section 2). -/
def c3ItemC : LineItem :=
  { emptyItem with sku := some "NK-C", quoteSectionIndex := some 2 }

/-- A parsed document with two pricing sections. -/
def c3Items : List LineItem := [c3ItemA, c3ItemB, c3ItemC]

/-- Its per-file payload as `process_one_pdf` assembles it (stated
total 0, tolerance 0, so section 1 reconciles exactly). -/
def c3Payload : DocPayload :=
  mkDocPayload none (some "Q-1") none c3Items (some 0) 0

/-- C3 counterexample: on a two-section document whose stated total
selects section 1 (items NK-A, NK-B), the written template rows still
cover all three parsed items including NK-C, which is outside the
reconciled set — the template is filled from the unreconciled
parser output. -/
theorem template_rows_from_unreconciled_counterexample :
    (buildTemplateRows [c3Payload] 1 0).map (fun r => r.item) =
      [some "NK-A", some "NK-B", some "NK-C"] ∧
    (selectLineItemsForTotal c3Items (some 0) 0).map (fun it => it.sku) =
      [some "NK-A", some "NK-B"] := by
  constructor
  · rw [buildTemplateRows, buildTemplateRows_eq]
    decide
  · have hkeys : sectionKeys c3Items = [1, 2] := by
      simp [sectionKeys, c3Items, c3ItemA, c3ItemB, c3ItemC, sectionKey,
        emptyItem, dedupFirst]
    have hsum1 : sectionSum c3Items 1 = 0 := by
      simp [sectionSum, sectionItems, c3Items, c3ItemA, c3ItemB, c3ItemC,
        sectionKey, emptyItem]
    have hsum2 : sectionSum c3Items 2 = 0 := by
      simp [sectionSum, sectionItems, c3Items, c3ItemA, c3ItemB, c3ItemC,
        sectionKey, emptyItem]
    have habs : |(0 : ℚ) - 0| ≤ 0 := by norm_num
    have hfil : (sectionKeys c3Items).filter
        (fun k => |(0 : ℚ) - sectionSum c3Items k| ≤ 0) = [1, 2] := by
      rw [hkeys]
      simp [List.filter_cons, hsum1, hsum2, habs]
    have hne : c3Items ≠ [] := by simp [c3Items]
    have hlen : ¬ (sectionKeys c3Items).length ≤ 1 := by
      rw [hkeys]; simp
    have hbest : bestKey (fun k => |(0 : ℚ) - sectionSum c3Items k|) [2] 1
        = 1 := by
      simp [bestKey, hsum1, hsum2]
    simp only [selectLineItemsForTotal, if_neg hne, hlen, if_false, hfil,
      hbest]
    simp [sectionItems, c3Items, c3ItemA, c3ItemB, c3ItemC, sectionKey,
      emptyItem, reindexItems, reindexFrom]

/-- Python truthiness of an optional string cell. -/
def pyTruthy (o : Option String) : Bool :=
  match o with
  | none => false
  | some s => s ≠ ""

/-- Embeds `_clean_cell` from `business.py`: trim, empty becomes
null. -/
def cleanCell (v : Option String) : Option String :=
  match v with
  | none => none
  | some s =>
      let t := String.mk (pyStrip s.toList)
      if t = "" then none else some t

/-- Embeds `_parse_percent` from `business.py`: first
`[-+]?[0-9]+(?:\.[0-9]+)?` token read as a number. -/
def parsePercent (raw : Option String) : Option ℚ :=
  match raw with
  | none => none
  | some s =>
      if s = "" then none
      else
        match findPctToken s.toList with
        | none => none
        | some tok => floatOfDecimal tok

/-- Match `[0-9]{1,2}` followed by a literal `/` at the head of `s`
(the day/month parts of `split_term_range`), returning the digits and
the characters after the slash. -/
def matchDayMonth (s : List Char) : Option (List Char × List Char) :=
  match s with
  | d1 :: d2 :: '/' :: r =>
      if d1.isDigit && d2.isDigit then some ([d1, d2], r) else none
  | d1 :: '/' :: r =>
      if d1.isDigit then some ([d1], r) else none
  | _ => none

/-- Match exactly `k` digits at the head of `s`. -/
def matchYearLen (s : List Char) (k : Nat) : Option (List Char × List Char) :=
  let ds := s.take k
  if ds.length = k && ds.all Char.isDigit then some (ds, s.drop k)
  else none

/-- Match the second `[0-9]{1,2}/[0-9]{1,2}/[0-9]{2,4}` date of
`split_term_range` (year greedy, no trailing context). -/
def matchSecondDate (s : List Char) : Option (List Char) :=
  match matchDayMonth s with
  | none => none
  | some (q1, r1) =>
      match matchDayMonth r1 with
      | none => none
      | some (q2, r2) =>
          match matchYearLen r2 4 with
          | some (y2, _) => some (q1 ++ '/' :: q2 ++ '/' :: y2)
          | none =>
              match matchYearLen r2 3 with
              | some (y2, _) => some (q1 ++ '/' :: q2 ++ '/' :: y2)
              | none =>
                  match matchYearLen r2 2 with
                  | some (y2, _) => some (q1 ++ '/' :: q2 ++ '/' :: y2)
                  | none => none

/-- Match `\s*-\s*` then the second date. -/
def matchSepThenDate (s : List Char) : Option (List Char) :=
  match s.dropWhile Char.isWhitespace with
  | '-' :: r => matchSecondDate (r.dropWhile Char.isWhitespace)
  | _ => none

/-- Match the full `split_term_range` pattern anchored at the head of
`s`: first date (year backtracks 4→3→2 against the separator), then
`\s*-\s*`, then the second date. -/
def matchTermAt (s : List Char) : Option (List Char × List Char) :=
  match matchDayMonth s with
  | none => none
  | some (p1, r1) =>
      match matchDayMonth r1 with
      | none => none
      | some (p2, r2) =>
          let tryY : Nat → Option (List Char × List Char) := fun k =>
            match matchYearLen r2 k with
            | none => none
            | some (y1, rest) =>
                match matchSepThenDate rest with
                | none => none
                | some d2 => some (p1 ++ '/' :: p2 ++ '/' :: y1, d2)
          match tryY 4 with
          | some res => some res
          | none =>
              match tryY 3 with
              | some res => some res
              | none => tryY 2

/-- Leftmost `split_term_range` match. -/
def findTerm : List Char → Option (List Char × List Char)
  | [] => none
  | c :: rest =>
      match matchTermAt (c :: rest) with
      | some r => some r
      | none => findTerm rest

/-- Embeds `split_term_range` from `normalize.py`: two
`D/M/Y`-looking dates around a hyphen; both null when absent. -/
def splitTermRange (raw : Option String) : Option String × Option String :=
  match raw with
  | none => (none, none)
  | some s =>
      if s = "" then (none, none)
      else
        match findTerm s.toList with
        | none => (none, none)
        | some (d1, d2) => (some (String.mk d1), some (String.mk d2))

/-- The eight line-item header fields, in the dict order of
`LINE_ITEM_HEADER_PATTERNS`. -/
inductive HField where
  | serviceName | sku | unitsQty | term | listUnitPrice | discountPct
  | netUnitPrice | netTotal
deriving DecidableEq, Repr

/-- The running field-to-column map of `parse_line_items` (a Python
dict with at most these eight keys). -/
structure ColumnMap where
  serviceName : Option Nat
  sku : Option Nat
  unitsQty : Option Nat
  term : Option Nat
  listUnitPrice : Option Nat
  discountPct : Option Nat
  netUnitPrice : Option Nat
  netTotal : Option Nat
deriving DecidableEq, Repr

/-- The empty column map (the falsy `{}`). -/
def emptyMap : ColumnMap :=
  { serviceName := none, sku := none, unitsQty := none, term := none,
    listUnitPrice := none, discountPct := none, netUnitPrice := none,
    netTotal := none }

/-- Embeds `_normalize_header_text`: lowercase, non-alphanumerics to
spaces, collapsed and trimmed. -/
def normalizeHeaderText (v : Option String) : List Char :=
  match v with
  | none => []
  | some s =>
      if s = "" then []
      else
        let mapped := s.toList.map (fun c =>
          let lc := c.toLower
          if lc.isLower || lc.isDigit then lc else ' ')
        List.intercalate [' '] (pyWordsAux mapped [])

/-- The first field (in dict order) one of whose keyword patterns is
a substring of the normalized header text — the inner loop with
`break` of `_detect_line_item_column_map`. -/
def headerFieldOf (n : List Char) : Option HField :=
  if listContains "service product name".toList n ||
      listContains "product name".toList n then some .serviceName
  else if listContains "service product code sku".toList n ||
      listContains "product code sku".toList n ||
      listContains "code sku".toList n ||
      listContains "product code".toList n ||
      listContains "sku".toList n then some .sku
  else if listContains "units quantity".toList n ||
      listContains "quantity".toList n ||
      listContains "units".toList n then some .unitsQty
  else if listContains "term".toList n then some .term
  else if listContains "list unit price".toList n then some .listUnitPrice
  else if listContains "discount".toList n then some .discountPct
  else if listContains "net unit price".toList n then some .netUnitPrice
  else if listContains "net total".toList n then some .netTotal
  else none

/-- Writes `mapping[field_name] = idx` guarded by `field_name not in
mapping`. -/
def setFieldIfAbsent (m : ColumnMap) (f : HField) (idx : Nat) : ColumnMap :=
  match f with
  | .serviceName =>
      if m.serviceName = none then { m with serviceName := some idx } else m
  | .sku => if m.sku = none then { m with sku := some idx } else m
  | .unitsQty => if m.unitsQty = none then { m with unitsQty := some idx } else m
  | .term => if m.term = none then { m with term := some idx } else m
  | .listUnitPrice =>
      if m.listUnitPrice = none then { m with listUnitPrice := some idx } else m
  | .discountPct =>
      if m.discountPct = none then { m with discountPct := some idx } else m
  | .netUnitPrice =>
      if m.netUnitPrice = none then { m with netUnitPrice := some idx } else m
  | .netTotal =>
      if m.netTotal = none then { m with netTotal := some idx } else m

/-- The cell scan of `_detect_line_item_column_map`. -/
def detectAux : List (Option String) → Nat → ColumnMap → ColumnMap
  | [], _, m => m
  | cell :: rest, idx, m =>
      let normalized := normalizeHeaderText cell
      let m2 :=
        if normalized = [] then m
        else
          match headerFieldOf normalized with
          | none => m
          | some f => setFieldIfAbsent m f idx
      detectAux rest (idx + 1) m2

/-- Embeds `_detect_line_item_column_map` from `business.py`: the
scan result, kept only when it has both identity fields and at least
one pricing field, else the empty map. -/
def detectLineItemColumnMap (cells : List (Option String)) : ColumnMap :=
  let m := detectAux cells 0 emptyMap
  if (m.serviceName ≠ none ∧ m.sku ≠ none) ∧
      (m.listUnitPrice ≠ none ∨ m.netUnitPrice ≠ none ∨ m.netTotal ≠ none)
  then m
  else emptyMap

/-- Embeds `_mapped_cell` from `business.py`. -/
def mappedCell (cells : List (Option String)) (idx : Option Nat) :
    Option String :=
  match idx with
  | none => none
  | some i => cells.getD i none

/-- The `" ".join(cell for cell in normalized if cell).lower()` row
text of `parse_line_items`. -/
def rowTextOf (normalized : List (Option String)) : List Char :=
  (List.intercalate [' ']
    (((normalized.filterMap id).filter (fun s => s ≠ "")).map
      String.toList)).map Char.toLower

/-- The configuration slice `parse_line_items` reads:
lowercased `header_contains` and `min_columns`. -/
structure ParseCfg where
  fileName : String
  expectedHeaders : List (List Char)
  minColumns : Nat
deriving DecidableEq, Repr

/-- The loop state of `parse_line_items`: the accumulated items, the
index of the open item (the Python `current_item` aliases the dict
stored in `items`), the section counter, the has-items flag and the
active column map. -/
structure ParseState where
  items : List LineItem
  currentItem : Option Nat
  quoteSectionIndex : Nat
  sectionHasItems : Bool
  activeColumnMap : ColumnMap
deriving DecidableEq, Repr

/-- The initial state of `parse_line_items`. -/
def initParseState : ParseState :=
  { items := [], currentItem := none, quoteSectionIndex := 1,
    sectionHasItems := false, activeColumnMap := emptyMap }

/-- Field extraction for one row: via the active column map when
non-empty, else fixed positional columns after padding to
`min_columns` (the Python unpack needs at least eight columns; the
default config uses eight). -/
def rowFields (cfg : ParseCfg) (cm : ColumnMap)
    (normalized : List (Option String)) : List (Option String) :=
  if cm ≠ emptyMap then
    [mappedCell normalized cm.serviceName, mappedCell normalized cm.sku,
     mappedCell normalized cm.unitsQty, mappedCell normalized cm.term,
     mappedCell normalized cm.listUnitPrice,
     mappedCell normalized cm.discountPct,
     mappedCell normalized cm.netUnitPrice,
     mappedCell normalized cm.netTotal]
  else
    let padded :=
      if normalized.length < cfg.minColumns then
        normalized ++ List.replicate (cfg.minColumns - normalized.length) none
      else normalized
    [padded.getD 0 none, padded.getD 1 none, padded.getD 2 none,
     padded.getD 3 none, padded.getD 4 none, padded.getD 5 none,
     padded.getD 6 none, padded.getD 7 none]

/-- The `i`-th extracted field (0 service_name … 7 net_total). -/
def fieldAt (cfg : ParseCfg) (cm : ColumnMap)
    (normalized : List (Option String)) (i : Nat) : Option String :=
  (rowFields cfg cm normalized).getD i none

/-- The in-place `description_continuation` mutation of the open item
(which lives inside `items`). -/
def appendContinuation (st : ParseState) (text : String) : ParseState :=
  match st.currentItem with
  | none => st
  | some idx =>
      match st.items.get? idx with
      | none => st
      | some it =>
          let newDesc :=
            match it.descriptionContinuation with
            | none => text
            | some existing =>
                String.mk (pyStrip (existing ++ "\n" ++ text).toList)
          let updated := { it with descriptionContinuation := some newDesc }
          { st with items := st.items.set idx updated }

/-- Embeds the body of the row loop of `parse_line_items`
(business.py lines 88–189): header detection, restated-header skips,
field extraction, then the boundary-row / continuation / new-item
dispatch in source order. -/
def processRow (cfg : ParseCfg) (st : ParseState)
    (row : List (Option String)) : ParseState :=
  let normalized := row.map cleanCell
  let detected := detectLineItemColumnMap normalized
  if detected ≠ emptyMap then { st with activeColumnMap := detected }
  else
    let rowText := rowTextOf normalized
    if cfg.expectedHeaders ≠ [] ∧
        ((cfg.expectedHeaders.take 2).all fun h =>
          listContains h rowText) = true then st
    else if listContains "service/product name".toList rowText = true ∧
        (listContains "code/sku".toList rowText = true ∨
         listContains "sku".toList rowText = true) then st
    else
      let f := fun i => fieldAt cfg st.activeColumnMap normalized i
      if (pyTruthy (f 0) || pyTruthy (f 1) || pyTruthy (f 2) ||
          pyTruthy (f 3) || pyTruthy (f 4) || pyTruthy (f 5) ||
          pyTruthy (f 6)) = false ∧ pyTruthy (f 7) = true then
        { st with
          currentItem := none
          quoteSectionIndex :=
            if st.sectionHasItems then st.quoteSectionIndex + 1
            else st.quoteSectionIndex
          sectionHasItems :=
            if st.sectionHasItems then false else st.sectionHasItems }
      else
        let nonEmpty := (normalized.filterMap id).filter (fun s => s ≠ "")
        if st.currentItem ≠ none ∧ nonEmpty.length = 1 then
          appendContinuation st (nonEmpty.getD 0 "")
        else
          if (pyTruthy (f 0) = true ∧
              (pyTruthy (f 1) || pyTruthy (f 2) || pyTruthy (f 3) ||
               pyTruthy (f 4) || pyTruthy (f 5) || pyTruthy (f 6) ||
               pyTruthy (f 7)) = false) ∧ st.currentItem ≠ none then
            appendContinuation st ((f 0).getD "")
          else if pyTruthy (f 1) = true ∧
              (pyTruthy (f 4) || pyTruthy (f 6) || pyTruthy (f 7)) = true then
            let ts := splitTermRange (f 3)
            let item : LineItem :=
              { file := cfg.fileName
                itemIndex := st.items.length + 1
                serviceName := f 0
                sku := f 1
                unitsQty := f 2
                termStart := ts.1
                termEnd := ts.2
                listUnitPriceRaw := f 4
                discountPctRaw := f 5
                netUnitPriceRaw := f 6
                netTotalRaw := f 7
                descriptionContinuation := none
                listUnitPriceValue := parseCurrencyValueOpt (f 4)
                discountPctValue := parsePercent (f 5)
                netUnitPriceValue := parseCurrencyValueOpt (f 6)
                netTotalValue := parseCurrencyValueOpt (f 7)
                quoteSectionIndex := some st.quoteSectionIndex }
            { st with
              items := st.items ++ [item]
              currentItem := some st.items.length
              sectionHasItems := true }
          else if pyTruthy (f 0) = true ∧ st.currentItem ≠ none then
            appendContinuation st ((f 0).getD "")
          else st

/-- Embeds `parse_line_items` from `business.py`: fold the row step
over every table's rows and return the accumulated items. -/
def parseLineItems (cfg : ParseCfg)
    (tables : List (List (List (Option String)))) : List LineItem :=
  (tables.foldl (fun st rows => rows.foldl (processRow cfg) st)
    initParseState).items

/-- C9: a table row that is not a header row (no detected column map,
not a restated-header row), in which none of service_name, sku,
units_qty, term or the three unit-price/discount fields is present
but net_total is, closes the current open item (creating none), and
increments the quote-section counter and resets the has-items flag
exactly when the current section already had at least one item. -/
theorem parse_boundary_row_closes_section (cfg : ParseCfg)
    (st : ParseState) (row : List (Option String))
    (hdet : detectLineItemColumnMap (row.map cleanCell) = emptyMap)
    (hh1 : ¬(cfg.expectedHeaders ≠ [] ∧
      ((cfg.expectedHeaders.take 2).all fun h =>
        listContains h (rowTextOf (row.map cleanCell))) = true))
    (hh2 : ¬(listContains "service/product name".toList
        (rowTextOf (row.map cleanCell)) = true ∧
      (listContains "code/sku".toList (rowTextOf (row.map cleanCell)) = true ∨
       listContains "sku".toList (rowTextOf (row.map cleanCell)) = true)))
    (hnone : ∀ i, i < 7 →
      pyTruthy (fieldAt cfg st.activeColumnMap (row.map cleanCell) i) = false)
    (htot : pyTruthy (fieldAt cfg st.activeColumnMap (row.map cleanCell) 7)
      = true) :
    processRow cfg st row =
      { st with
        currentItem := none
        quoteSectionIndex :=
          if st.sectionHasItems then st.quoteSectionIndex + 1
          else st.quoteSectionIndex
        sectionHasItems := false } := by
  simp only [processRow]
  rw [hdet]
  rw [if_neg (by simp)]
  rw [if_neg hh1, if_neg hh2]
  rw [if_pos ⟨by
    simp [hnone 0 (by omega), hnone 1 (by omega), hnone 2 (by omega),
      hnone 3 (by omega), hnone 4 (by omega), hnone 5 (by omega),
      hnone 6 (by omega)], htot⟩]
  cases hb : st.sectionHasItems <;> simp

/-- Configuration of the closed boundary-row instance. -/
def c9Cfg : ParseCfg :=
  { fileName := "sample.pdf", expectedHeaders := [], minColumns := 8 }

/-- The open item of the closed boundary-row instance. -/
def c9Item : LineItem :=
  { emptyItem with sku := some "NK-1", quoteSectionIndex := some 1 }

/-- A state with one item open in a non-empty section. -/
def c9State : ParseState :=
  { items := [c9Item], currentItem := some 0, quoteSectionIndex := 1,
    sectionHasItems := true, activeColumnMap := emptyMap }

/-- An all-empty row carrying only a trailing total. -/
def c9Row : List (Option String) :=
  [none, none, none, none, none, none, none, some "USD 100.00"]

/-- Closed instance of `parse_boundary_row_closes_section`: the row
closes the open item, bumps the section counter and resets the flag. -/
theorem parse_boundary_row_closes_section_witness :
    processRow c9Cfg c9State c9Row =
      { c9State with
        currentItem := none
        quoteSectionIndex :=
          if c9State.sectionHasItems then c9State.quoteSectionIndex + 1
          else c9State.quoteSectionIndex
        sectionHasItems := false } :=
  parse_boundary_row_closes_section c9Cfg c9State c9Row (by decide)
    (by decide) (by decide) (by decide) (by decide)

end PdfQuote
